import Mathlib

/-!
Shallow embedding of the chat repository layer of this project
(`src/storage/repository.ts`, first/embedded variant, together with the
helpers it uses from `src/utils.ts` and the record types of `src/types.ts`).

Modelling conventions:
* The IndexedDB object stores are lists of records inside a single `DB`
  structure; `put` is modelled by `putByKey`, which replaces the record with
  the same primary key or appends the record (IndexedDB `put` upsert
  semantics for a `keyPath` of `id`).
* `createId` returns a fresh UUID-based string in the source; freshness is
  modelled by a counter `DB.nextId`, with ids drawn as consecutive numbers.
  The blob key `"blob_" ++ attachmentId` of the source is an injective
  function of the attachment id, so blob keys are modelled by the attachment
  id itself.
* `Date.now()` is passed explicitly as a `now : Nat` argument.
* Asynchronous methods become pure functions from `DB` to `DB` (plus a
  result); a thrown error becomes `Except.error`, so a failed operation
  returns no new state — exactly the all-or-nothing transaction behaviour of
  `runTransaction`.
* `Map`-based lookups by id in the source are modelled by `List.find?` on
  the underlying record list, and `groupBy(k).get(x) ?? []` by a filter on
  the same key, which yields the same records in the same order.
* JavaScript string `charCodeAt` iteration is modelled over the string's
  characters (`Char.toNat`), which agrees with UTF-16 code units on the
  Basic Multilingual Plane.
-/

/-- Kind of a chat (`types.ts` `ChatType`). -/
inductive ChatType where
  | dm
  | group
deriving DecidableEq, Repr

/-- Role of a chat membership (`types.ts` `MembershipRole`). -/
inductive MembershipRole where
  | owner
  | member
deriving DecidableEq, Repr

/-- Kind of a message (`types.ts` `MessageType`). -/
inductive MessageType where
  | text
  | system
  | file
  | image
  | mixed
deriving DecidableEq, Repr

/-- Kind of an attachment (`types.ts` `AttachmentKind`). -/
inductive AttachmentKind where
  | image
  | file
deriving DecidableEq, Repr

/-- Identity record (`types.ts` `Profile`). -/
structure Profile where
  id : Nat
  displayName : String
  avatarColor : String
  createdAt : Nat
  updatedAt : Nat
deriving DecidableEq, Repr

/-- Conversation record (`types.ts` `Chat`). -/
structure Chat where
  id : Nat
  type : ChatType
  title : Option String
  createdByProfileId : Nat
  createdAt : Nat
  updatedAt : Nat
  lastMessageAt : Option Nat
deriving DecidableEq, Repr

/-- Join record between a chat and a profile (`types.ts` `ChatMembership`). -/
structure ChatMembership where
  id : Nat
  chatId : Nat
  profileId : Nat
  role : MembershipRole
  joinedAt : Nat
  leftAt : Option Nat
deriving DecidableEq, Repr

/-- Message record (`types.ts` `Message`). -/
structure Message where
  id : Nat
  chatId : Nat
  senderProfileId : Nat
  type : MessageType
  text : Option String
  attachmentIds : List Nat
  createdAt : Nat
deriving DecidableEq, Repr

/-- Attachment metadata record (`types.ts` `AttachmentMeta`). -/
structure AttachmentMeta where
  id : Nat
  messageId : Nat
  chatId : Nat
  kind : AttachmentKind
  fileName : String
  mimeType : String
  sizeBytes : Nat
  blobKey : Nat
  createdAt : Nat
deriving DecidableEq, Repr

/-- An input file (DOM `File`): name, MIME type, size and byte content. -/
structure FileInput where
  name : String
  type : String
  size : Nat
  content : List Nat
deriving DecidableEq, Repr

/-- Attachment metadata joined with its blob (`types.ts` `AttachmentWithBlob`);
the blob store holds the `File` object itself, so the blob is a `FileInput`. -/
structure AttachmentWithBlob extends AttachmentMeta where
  blob : FileInput
deriving DecidableEq, Repr

/-- Message joined with resolved attachments (`types.ts` `MessageWithAttachments`). -/
structure MessageWithAttachments extends Message where
  attachments : List AttachmentWithBlob
deriving DecidableEq, Repr

/-- Chat-list projection entry (`types.ts` `ChatListItem`). -/
structure ChatListItem where
  chat : Chat
  title : String
  subtitle : String
  lastMessageAt : Option Nat
  memberCount : Nat
deriving DecidableEq, Repr

/-- Input of `sendMessage` (`types.ts` `SendMessageInput`). -/
structure SendMessageInput where
  chatId : Nat
  senderProfileId : Nat
  text : String
  files : List FileInput
deriving DecidableEq, Repr

/-- Input of `createGroup` (`types.ts` `CreateGroupInput`). -/
structure CreateGroupInput where
  title : String
  ownerProfileId : Nat
  memberProfileIds : List Nat
deriving DecidableEq, Repr

/-- Quota configuration (`types.ts` `FileLimitConfig`, the repository's
`limits` field). -/
structure FileLimitConfig where
  maxFileBytes : Nat
  maxTotalBytes : Nat
deriving DecidableEq, Repr

/-- Result of `validateFile` (`types.ts` `ValidationResult`). -/
structure ValidationResult where
  ok : Bool
  reason : Option String
deriving DecidableEq, Repr

/-- The object stores of the IndexedDB database `local-texting-app`, plus the
id-freshness counter standing in for UUID generation. -/
structure DB where
  profiles : List Profile
  chats : List Chat
  memberships : List ChatMembership
  messages : List Message
  attachmentsMeta : List AttachmentMeta
  attachmentsBlob : List (Nat × FileInput)
  nextId : Nat
deriving DecidableEq, Repr

/-- The empty database. -/
def DB.empty : DB :=
  { profiles := [], chats := [], memberships := [], messages := [],
    attachmentsMeta := [], attachmentsBlob := [], nextId := 0 }

/-- The repository's hard-coded limits: 10 MB per file, 100 MB total. -/
def defaultLimits : FileLimitConfig :=
  { maxFileBytes := 10 * 1024 * 1024, maxTotalBytes := 100 * 1024 * 1024 }

/-- IndexedDB `put` against a store with `keyPath: "id"`: replace the record
bearing the same key, or insert the record. -/
def putByKey {α : Type} (key : α → Nat) (r : α) : List α → List α
  | [] => [r]
  | x :: xs => if key x = key r then r :: xs else x :: putByKey key r xs

/-- JavaScript `String.prototype.trim`, modelled structurally on the
character list (drop leading and trailing whitespace). -/
def jsTrim (s : String) : String :=
  String.mk (((s.data.dropWhile Char.isWhitespace).reverse.dropWhile
    Char.isWhitespace).reverse)

instance : DecidableEq (Except String (DB × Message)) := fun a b =>
  match a, b with
  | Except.ok x, Except.ok y =>
    if h : x = y then isTrue (by rw [h]) else isFalse (by intro hc; cases hc; exact h rfl)
  | Except.error x, Except.error y =>
    if h : x = y then isTrue (by rw [h]) else isFalse (by intro hc; cases hc; exact h rfl)
  | Except.ok _, Except.error _ => isFalse (by intro hc; cases hc)
  | Except.error _, Except.ok _ => isFalse (by intro hc; cases hc)

/-- The avatar palette of `utils.ts`. -/
def COLORS : List String :=
  ["#0ea5e9", "#10b981", "#f59e0b", "#ef4444", "#6366f1", "#14b8a6", "#f97316", "#22c55e"]

/-- Truncation to a signed 32-bit integer (the effect of JavaScript `|= 0`
and of `<<` on its operands/result). -/
def jsToInt32 (n : Int) : Int := ((n + 2 ^ 31) % 2 ^ 32) - 2 ^ 31

/-- One step of the `pickAvatarColor` hash loop:
`hash = (hash << 5) - hash + charCode; hash |= 0`. -/
def hashStep (h : Int) (c : Nat) : Int := jsToInt32 (jsToInt32 (h * 32) - h + c)

/-- Deterministic avatar colour derived from a seed string (`utils.ts`
`pickAvatarColor`). -/
def pickAvatarColor (seed : String) : String :=
  let h := seed.data.foldl (fun h c => hashStep h c.toNat) 0
  COLORS.getD (h.natAbs % COLORS.length) ""

/-- MIME sniffing helper (`utils.ts` `isImageMime`). -/
def isImageMime (mimeType : String) : Bool := "image/".data.isPrefixOf mimeType.data

/-- De-duplication keeping first occurrences, as `[...new Set(xs)]` does;
`seen` accumulates the values already emitted. -/
def dedupAux : List Nat → List Nat → List Nat
  | [], _ => []
  | x :: xs, seen => if seen.contains x then dedupAux xs seen else x :: dedupAux xs (x :: seen)

/-- `[...new Set(xs)]`. -/
def dedupFirst (xs : List Nat) : List Nat := dedupAux xs []

/-- Ascending sort of an id list, as JavaScript `Array.prototype.sort` on the
stored ids (for the two-element comparisons of `findExistingDm` any total
order is interchangeable with the string order of the source). -/
def sortIds (xs : List Nat) : List Nat := List.insertionSort (fun a b => a ≤ b) xs

/-- Lookup of a blob in a blob store (`getByKey` on `attachmentsBlob`). -/
def findBlob (store : List (Nat × FileInput)) (key : Nat) : Option FileInput :=
  (store.find? (fun e => e.1 == key)).map (fun e => e.2)

/-- Lookup of a blob by key in the database (`getByKey(db, STORE_ATTACH_BLOB, key)`). -/
def getBlobRecord (db : DB) (key : Nat) : Option FileInput :=
  findBlob db.attachmentsBlob key

/-- `ChatRepository.getChat`: lookup of a chat by primary key. -/
def getChat (db : DB) (chatId : Nat) : Option Chat :=
  db.chats.find? (fun c => c.id == chatId)

/-- `ChatRepository.canProfileAccessChat`: true iff an active membership
exists for the (profile, chat) pair. -/
def canProfileAccessChat (db : DB) (profileId chatId : Nat) : Bool :=
  (db.memberships.filter (fun m => m.chatId == chatId)).any
    (fun m => m.profileId == profileId && m.leftAt.isNone)

/-- `ChatRepository.getTotalAttachmentBytes`: sum of `sizeBytes` over all
stored attachment metadata. -/
def getTotalAttachmentBytes (db : DB) : Nat :=
  (db.attachmentsMeta.map (fun meta => meta.sizeBytes)).sum

/-- `ChatRepository.createProfile`: trims the display name, derives the
avatar colour from the raw name, stores with a fresh id; no validation. -/
def createProfile (db : DB) (displayName : String) (now : Nat) : DB × Profile :=
  let profile : Profile :=
    { id := db.nextId, displayName := jsTrim displayName,
      avatarColor := pickAvatarColor displayName, createdAt := now, updatedAt := now }
  ({ db with profiles := putByKey (fun p => p.id) profile db.profiles,
             nextId := db.nextId + 1 }, profile)

/-- The membership-pair check of `ChatRepository.findExistingDm`: the active
members of `chat` are exactly the (multi)set of the sorted pair of `a`, `b`. -/
def dmPairMatches (active : List ChatMembership) (a b : Nat) (chat : Chat) : Bool :=
  let ids := sortIds ((active.filter (fun m => m.chatId == chat.id)).map
    (fun m => m.profileId))
  let pair := sortIds [a, b]
  ids.length == 2 && ids.getD 0 0 == pair.getD 0 0 && ids.getD 1 0 == pair.getD 1 0

/-- `ChatRepository.findExistingDm`: first stored dm chat whose active
membership set matches the pair. -/
def findExistingDm (db : DB) (a b : Nat) : Option Chat :=
  let active := db.memberships.filter (fun m => m.leftAt.isNone)
  db.chats.find? (fun chat => chat.type == ChatType.dm && dmPairMatches active a b chat)

/-- `ChatRepository.createDm`: return the existing dm for the pair if found,
else create a chat and two memberships (first party owner). -/
def createDm (db : DB) (activeProfileId otherProfileId : Nat) (now : Nat) : DB × Chat :=
  match findExistingDm db activeProfileId otherProfileId with
  | some existing => (db, existing)
  | none =>
    let chat : Chat :=
      { id := db.nextId, type := ChatType.dm, title := none,
        createdByProfileId := activeProfileId, createdAt := now, updatedAt := now,
        lastMessageAt := none }
    let m1 : ChatMembership :=
      { id := db.nextId + 1, chatId := chat.id, profileId := activeProfileId,
        role := MembershipRole.owner, joinedAt := now, leftAt := none }
    let m2 : ChatMembership :=
      { id := db.nextId + 2, chatId := chat.id, profileId := otherProfileId,
        role := MembershipRole.member, joinedAt := now, leftAt := none }
    ({ db with
        chats := putByKey (fun c => c.id) chat db.chats,
        memberships := putByKey (fun m => m.id) m2
          (putByKey (fun m => m.id) m1 db.memberships),
        nextId := db.nextId + 3 }, chat)

/-- The membership records created by `createGroup` for the de-duplicated
member list, with consecutive fresh ids starting at `ctr`. -/
def groupMembershipsFor (chatId ownerProfileId now : Nat) :
    List Nat → Nat → List ChatMembership
  | [], _ => []
  | p :: rest, ctr =>
    { id := ctr, chatId := chatId, profileId := p,
      role := if p == ownerProfileId then MembershipRole.owner else MembershipRole.member,
      joinedAt := now, leftAt := none } ::
      groupMembershipsFor chatId ownerProfileId now rest (ctr + 1)

/-- `ChatRepository.createGroup`: de-duplicates members (owner first), makes
a group chat with trimmed title (default when blank), one membership per
unique member and a "Group created" system message. -/
def createGroup (db : DB) (input : CreateGroupInput) (now : Nat) : DB × Chat :=
  let uniqueMembers := dedupFirst (input.ownerProfileId :: input.memberProfileIds)
  let chat : Chat :=
    { id := db.nextId, type := ChatType.group,
      title := some (if jsTrim input.title == "" then "Untitled Group" else jsTrim input.title),
      createdByProfileId := input.ownerProfileId, createdAt := now, updatedAt := now,
      lastMessageAt := some now }
  let memberships := groupMembershipsFor chat.id input.ownerProfileId now
    uniqueMembers (db.nextId + 1)
  let systemMessage : Message :=
    { id := db.nextId + 1 + uniqueMembers.length, chatId := chat.id,
      senderProfileId := input.ownerProfileId, type := MessageType.system,
      text := some "Group created", attachmentIds := [], createdAt := now }
  ({ db with
      chats := putByKey (fun c => c.id) chat db.chats,
      memberships := memberships.foldl (fun s m => putByKey (fun x => x.id) m s) db.memberships,
      messages := putByKey (fun m => m.id) systemMessage db.messages,
      nextId := db.nextId + 2 + uniqueMembers.length }, chat)

/-- Profile ids with an active membership in the chat (the `activeMemberSet`
of `addGroupMembers`). -/
def activeMemberIdsOf (db : DB) (chatId : Nat) : List Nat :=
  (((db.memberships.filter (fun m => m.chatId == chatId)).filter
    (fun m => m.leftAt.isNone)).map (fun m => m.profileId))

/-- Display-name lookup (`namesById` in the source, a `Map` keyed by id). -/
def displayNameOf (db : DB) (profileId : Nat) : Option String :=
  (db.profiles.find? (fun p => p.id == profileId)).map (fun p => p.displayName)

/-- The write loop of `addGroupMembers`: for each id not already an active
member, one membership and one system message naming the member; each
addition consumes two fresh ids. Returns the created memberships, the
created messages and the final counter. -/
def addMembersLoop (chatId actorProfileId now : Nat) (names : Nat → Option String)
    (activeSet : List Nat) : List Nat → Nat → List ChatMembership × List Message × Nat
  | [], ctr => ([], [], ctr)
  | p :: rest, ctr =>
    if activeSet.contains p then
      addMembersLoop chatId actorProfileId now names activeSet rest ctr
    else
      let membership : ChatMembership :=
        { id := ctr, chatId := chatId, profileId := p, role := MembershipRole.member,
          joinedAt := now, leftAt := none }
      let sysMsg : Message :=
        { id := ctr + 1, chatId := chatId, senderProfileId := actorProfileId,
          type := MessageType.system,
          text := some (((names p).getD "User") ++ " was added to the group"),
          attachmentIds := [], createdAt := now }
      let rec' := addMembersLoop chatId actorProfileId now names activeSet rest (ctr + 2)
      (membership :: rec'.1, sysMsg :: rec'.2.1, rec'.2.2)

/-- `ChatRepository.addGroupMembers`: de-duplicates the ids, returns at once
when that list is empty; otherwise adds a membership and a system message for
every id that is not already an active member, and — whenever the chat record
exists — rewrites it with `updatedAt`/`lastMessageAt` set to `now`, even when
nothing was added. -/
def addGroupMembers (db : DB) (chatId actorProfileId : Nat) (profileIds : List Nat)
    (now : Nat) : DB :=
  let ids := dedupFirst profileIds
  if ids.isEmpty then db
  else
    let activeSet := activeMemberIdsOf db chatId
    let r := addMembersLoop chatId actorProfileId now (displayNameOf db) activeSet ids db.nextId
    { db with
      memberships := r.1.foldl (fun s m => putByKey (fun x => x.id) m s) db.memberships,
      messages := r.2.1.foldl (fun s m => putByKey (fun x => x.id) m s) db.messages,
      chats := match getChat db chatId with
        | some c => putByKey (fun x => x.id)
            { c with updatedAt := now, lastMessageAt := some now } db.chats
        | none => db.chats,
      nextId := r.2.2 }

/-- `ChatRepository.leaveGroup`: closes the caller's active membership, adds
a system message and refreshes the chat's activity timestamps; returns the
state unchanged when no active membership exists. -/
def leaveGroup (db : DB) (chatId profileId : Nat) (now : Nat) : DB :=
  match (db.memberships.filter (fun m => m.chatId == chatId)).find?
      (fun m => m.profileId == profileId && m.leftAt.isNone) with
  | none => db
  | some active =>
    let closed := { active with leftAt := some now }
    let sysMsg : Message :=
      { id := db.nextId, chatId := chatId, senderProfileId := profileId,
        type := MessageType.system,
        text := some (((displayNameOf db profileId).getD "User") ++ " left the group"),
        attachmentIds := [], createdAt := now }
    { db with
      memberships := putByKey (fun m => m.id) closed db.memberships,
      messages := putByKey (fun m => m.id) sysMsg db.messages,
      chats := match getChat db chatId with
        | some c => putByKey (fun x => x.id)
            { c with updatedAt := now, lastMessageAt := some now } db.chats
        | none => db.chats,
      nextId := db.nextId + 1 }

/-- Message-kind derivation at send time (`repository.ts` `deriveMessageType`). -/
def deriveMessageType (text : String) (files : List FileInput) : MessageType :=
  match files with
  | [] => MessageType.text
  | [f] =>
    if text == "" then
      if isImageMime f.type then MessageType.image else MessageType.file
    else MessageType.mixed
  | _ => MessageType.mixed

/-- `ChatRepository.validateFile`: the per-file size cap. -/
def validateFile (cfg : FileLimitConfig) (f : FileInput) : ValidationResult :=
  if f.size > cfg.maxFileBytes then
    { ok := false, reason := some ("File \"" ++ f.name ++ "\" is larger than 10 MB.") }
  else { ok := true, reason := none }

/-- One attachment-metadata record of the `sendMessage` write loop. -/
def mkAttachmentMeta (chatId messageId now : Nat) (f : FileInput) (attachmentId : Nat) :
    AttachmentMeta :=
  { id := attachmentId, messageId := messageId, chatId := chatId,
    kind := if isImageMime f.type then AttachmentKind.image else AttachmentKind.file,
    fileName := f.name,
    mimeType := if f.type == "" then "application/octet-stream" else f.type,
    sizeBytes := f.size, blobKey := attachmentId, createdAt := now }

/-- Attachment-metadata records created by the `sendMessage` loop, with
consecutive fresh attachment ids starting at `ctr`. -/
def attachMetasFor (chatId messageId now : Nat) : List FileInput → Nat → List AttachmentMeta
  | [], _ => []
  | f :: rest, ctr =>
    mkAttachmentMeta chatId messageId now f ctr ::
      attachMetasFor chatId messageId now rest (ctr + 1)

/-- Blob-store records created by the `sendMessage` loop: the `File` object
itself stored at the blob key of its attachment. -/
def attachBlobsFor : List FileInput → Nat → List (Nat × FileInput)
  | [], _ => []
  | f :: rest, ctr => (ctr, f) :: attachBlobsFor rest (ctr + 1)

/-- Attachment ids pushed onto the message's `attachmentIds` by the loop. -/
def attachIdsFor : List FileInput → Nat → List Nat
  | [], _ => []
  | _ :: rest, ctr => ctr :: attachIdsFor rest (ctr + 1)

/-- `ChatRepository.sendMessage`: rejects an empty send, then oversize files,
then a total-quota overflow, all before any write; on success writes the
attachment metadata and blobs, the message and the chat activity update in
one transaction. -/
def sendMessage (cfg : FileLimitConfig) (db : DB) (input : SendMessageInput) (now : Nat) :
    Except String (DB × Message) :=
  let text := jsTrim input.text
  if text == "" && input.files.isEmpty then
    Except.error "Cannot send an empty message"
  else
    match input.files.find? (fun f => !(validateFile cfg f).ok) with
    | some f => Except.error (((validateFile cfg f).reason).getD "Invalid file")
    | none =>
      let totalAttachmentBytes := (input.files.map (fun f => f.size)).sum
      let totalStored := getTotalAttachmentBytes db
      if totalStored + totalAttachmentBytes > cfg.maxTotalBytes then
        Except.error "Attachment storage limit reached. Delete data or use smaller files."
      else
        let messageId := db.nextId
        let attachmentIds := attachIdsFor input.files (db.nextId + 1)
        let message : Message :=
          { id := messageId, chatId := input.chatId,
            senderProfileId := input.senderProfileId,
            type := deriveMessageType text input.files,
            text := if text == "" then none else some text,
            attachmentIds := attachmentIds, createdAt := now }
        let newMetas := attachMetasFor input.chatId messageId now input.files (db.nextId + 1)
        let newBlobs := attachBlobsFor input.files (db.nextId + 1)
        let db' : DB :=
          { db with
            attachmentsMeta :=
              newMetas.foldl (fun s meta => putByKey (fun x => x.id) meta s) db.attachmentsMeta,
            attachmentsBlob :=
              newBlobs.foldl (fun s b => putByKey (fun x => x.1) b s) db.attachmentsBlob,
            messages := putByKey (fun m => m.id) message db.messages,
            chats := match getChat db input.chatId with
              | some c => putByKey (fun x => x.id)
                  { c with updatedAt := now, lastMessageAt := some now } db.chats
              | none => db.chats,
            nextId := db.nextId + 1 + input.files.length }
        Except.ok (db', message)

/-- Ascending creation-time order used for the per-chat message sort. -/
def msgLe (a b : Message) : Prop := a.createdAt ≤ b.createdAt

instance : DecidableRel msgLe :=
  fun a b => inferInstanceAs (Decidable (a.createdAt ≤ b.createdAt))

/-- The attachments joined onto one message by `getMessages`: the metadata of
the message whose blob is present, in store order; a missing blob drops the
attachment silently. -/
def attachmentsForMessage (db : DB) (chatMetas : List AttachmentMeta) (messageId : Nat) :
    List AttachmentWithBlob :=
  (chatMetas.filter (fun meta => meta.messageId == messageId)).filterMap
    (fun meta => (getBlobRecord db meta.blobKey).map
      (fun b => { toAttachmentMeta := meta, blob := b }))

/-- `ChatRepository.getMessages`: the chat's messages ordered by creation
time, each joined with its resolved attachments. -/
def getMessages (db : DB) (chatId : Nat) : List MessageWithAttachments :=
  let inChat := List.insertionSort msgLe (db.messages.filter (fun m => m.chatId == chatId))
  let chatMetas := db.attachmentsMeta.filter (fun meta => meta.chatId == chatId)
  inChat.map (fun message =>
    { toMessage := message, attachments := attachmentsForMessage db chatMetas message.id })

/-- One entry of the visible-chat projection (`getVisibleChatsForProfile`'s
`map` body). -/
def buildChatListItem (db : DB) (profileId : Nat) (activeMemberships : List ChatMembership)
    (chat : Chat) : ChatListItem :=
  let chatMembers := activeMemberships.filter (fun m => m.chatId == chat.id)
  let chatMessages := List.insertionSort msgLe (db.messages.filter (fun m => m.chatId == chat.id))
  let lastMessage := chatMessages.getLast?
  let title :=
    if chat.type == ChatType.dm then
      match chatMembers.find? (fun m => m.profileId != profileId) with
      | some other => (displayNameOf db other.profileId).getD "Unknown"
      | none => "DM"
    else chat.title.getD "DM"
  let subtitle :=
    match lastMessage with
    | none => "No messages yet"
    | some lm =>
      if lm.type == MessageType.system then lm.text.getD "System"
      else
        let trimmed := jsTrim (lm.text.getD "")
        if trimmed == "" then
          if lm.attachmentIds.length > 0 then "Attachment" else "Message"
        else trimmed
  { chat := chat, title := title, subtitle := subtitle,
    lastMessageAt := chat.lastMessageAt, memberCount := chatMembers.length }

/-- Effective last-activity timestamp of a chat-list entry:
`lastMessageAt ?? chat.updatedAt`. -/
def effectiveLastActivity (it : ChatListItem) : Nat :=
  it.lastMessageAt.getD it.chat.updatedAt

/-- Descending order on effective last activity (the final `.sort` comparator
of `getVisibleChatsForProfile`). -/
def itemGe (a b : ChatListItem) : Prop :=
  effectiveLastActivity b ≤ effectiveLastActivity a

instance : DecidableRel itemGe :=
  fun a b => inferInstanceAs (Decidable (effectiveLastActivity b ≤ effectiveLastActivity a))

instance : IsTotal ChatListItem itemGe :=
  ⟨fun a b => (Nat.le_total (effectiveLastActivity b) (effectiveLastActivity a)).imp
    (fun h => h) (fun h => h)⟩

instance : IsTrans ChatListItem itemGe :=
  ⟨fun _ _ _ hab hbc => Nat.le_trans hbc hab⟩

/-- `ChatRepository.getVisibleChatsForProfile`: the chats with an active
membership for the profile, projected to list items and sorted by effective
last activity descending. -/
def getVisibleChatsForProfile (db : DB) (profileId : Nat) : List ChatListItem :=
  let activeMemberships := db.memberships.filter (fun m => m.leftAt.isNone)
  let visibleChatIds :=
    (activeMemberships.filter (fun m => m.profileId == profileId)).map (fun m => m.chatId)
  List.insertionSort itemGe
    ((db.chats.filter (fun chat => visibleChatIds.contains chat.id)).map
      (buildChatListItem db profileId activeMemberships))

/-- Well-formedness of a database state: every stored primary key and every
stored reference to a generated id lies below the freshness counter. Holds
for the empty database and is maintained by every operation, since ids are
only ever drawn from the counter. -/
def Wf (db : DB) : Prop :=
  (∀ p ∈ db.profiles, p.id < db.nextId) ∧
  (∀ c ∈ db.chats, c.id < db.nextId) ∧
  (∀ m ∈ db.memberships, m.id < db.nextId ∧ m.chatId < db.nextId) ∧
  (∀ m ∈ db.messages, m.id < db.nextId) ∧
  (∀ a ∈ db.attachmentsMeta,
    a.id < db.nextId ∧ a.messageId < db.nextId ∧ a.blobKey < db.nextId) ∧
  (∀ b ∈ db.attachmentsBlob, b.1 < db.nextId)

/-- At most one active membership per (chat, profile) pair. -/
def ActiveUnique (db : DB) : Prop :=
  (db.memberships.filter (fun m => m.leftAt.isNone)).Pairwise
    (fun m1 m2 => ¬(m1.chatId = m2.chatId ∧ m1.profileId = m2.profileId))

instance (db : DB) : Decidable (Wf db) := by
  unfold Wf
  exact inferInstance

instance (db : DB) : Decidable (ActiveUnique db) := by
  unfold ActiveUnique
  exact inferInstance

/-- `put` of a record whose key is absent from the store appends the record. -/
theorem putByKey_of_fresh {α : Type} (key : α → Nat) (r : α) :
    ∀ xs : List α, (∀ x ∈ xs, key x ≠ key r) → putByKey key r xs = xs ++ [r] := by
  intro xs
  induction xs with
  | nil => intro _; rfl
  | cons x xs ih =>
    intro h
    have hx : key x ≠ key r := h x (List.mem_cons_self x xs)
    simp only [putByKey, if_neg hx, List.cons_append]
    rw [ih (fun y hy => h y (List.mem_cons_of_mem x hy))]

/-- Folding `put` over a batch of fresh, key-distinct records appends them. -/
theorem foldl_putByKey_of_fresh {α : Type} (key : α → Nat) :
    ∀ (news olds : List α),
      (∀ n ∈ news, ∀ x ∈ olds, key x ≠ key n) →
      (news.map key).Nodup →
      news.foldl (fun s x => putByKey key x s) olds = olds ++ news := by
  intro news
  induction news with
  | nil => intro olds _ _; simp
  | cons n rest ih =>
    intro olds hfresh hnodup
    have h1 : putByKey key n olds = olds ++ [n] :=
      putByKey_of_fresh key n olds (fun x hx => hfresh n (List.mem_cons_self n rest) x hx)
    simp only [List.foldl_cons, h1]
    have hnodup' : (rest.map key).Nodup := (List.nodup_cons.mp (by simpa using hnodup)).2
    have hnotin : key n ∉ rest.map key := (List.nodup_cons.mp (by simpa using hnodup)).1
    rw [ih (olds ++ [n]) ?_ hnodup']
    · simp
    · intro m hm x hx
      rcases List.mem_append.mp hx with hxo | hxn
      · exact hfresh m (List.mem_cons_of_mem n hm) x hxo
      · have : x = n := by simpa using hxn
        subst this
        intro hkey
        exact hnotin (hkey ▸ List.mem_map_of_mem key hm)

/-- Replacing a record that the filter rejects can only shrink the filtered
view of the store. -/
theorem filter_putByKey_sublist {α : Type} (key : α → Nat) (p : α → Bool) (r : α)
    (hr : p r = false) :
    ∀ xs : List α, ((putByKey key r xs).filter p).Sublist (xs.filter p) := by
  intro xs
  induction xs with
  | nil => simp [putByKey, List.filter_cons, hr]
  | cons x xs ih =>
    by_cases hk : key x = key r
    · simp only [putByKey, if_pos hk, List.filter_cons, hr]
      cases hp : p x
      · simp
      · simp only [if_pos rfl]
        exact List.sublist_cons_of_sublist x (List.Sublist.refl _)
    · simp only [putByKey, if_neg hk, List.filter_cons]
      cases hp : p x
      · simpa [hp] using ih
      · simpa [hp] using List.Sublist.cons₂ x ih

/-- A list scan skips a prefix none of whose elements satisfies the test. -/
theorem find?_append_left_none {α : Type} (p : α → Bool) :
    ∀ l1 l2 : List α, (∀ x ∈ l1, p x = false) → (l1 ++ l2).find? p = l2.find? p := by
  intro l1
  induction l1 with
  | nil => intro l2 _; rfl
  | cons x l1 ih =>
    intro l2 h
    have hx : p x = false := h x (List.mem_cons_self x l1)
    simp only [List.cons_append, List.find?, hx]
    exact ih l2 (fun y hy => h y (List.mem_cons_of_mem x hy))

/-- Soundness of the `Set`-style de-duplication: the output has no
duplicates, draws from the input and avoids the `seen` accumulator. -/
theorem dedupAux_sound :
    ∀ (xs seen : List Nat),
      (dedupAux xs seen).Nodup ∧
      (∀ y ∈ dedupAux xs seen, y ∈ xs ∧ seen.contains y = false) := by
  intro xs
  induction xs with
  | nil => intro seen; exact ⟨List.nodup_nil, by intro y hy; cases hy⟩
  | cons x xs ih =>
    intro seen
    by_cases hc : seen.contains x
    · simp only [dedupAux, if_pos hc]
      refine ⟨(ih seen).1, ?_⟩
      intro y hy
      exact ⟨List.mem_cons_of_mem x ((ih seen).2 y hy).1, ((ih seen).2 y hy).2⟩
    · simp only [dedupAux, if_neg hc]
      have hrest := ih (x :: seen)
      constructor
      · refine List.nodup_cons.mpr ⟨?_, hrest.1⟩
        intro hx
        have := (hrest.2 x hx).2
        simp [List.contains, List.elem_cons] at this
      · intro y hy
        rcases List.mem_cons.mp hy with rfl | hy'
        · exact ⟨List.mem_cons_self y xs, by simpa using hc⟩
        · refine ⟨List.mem_cons_of_mem x (hrest.2 y hy').1, ?_⟩
          have := (hrest.2 y hy').2
          simp only [List.contains, List.elem_cons] at this ⊢
          rcases h2 : y == x with _ | _
          · simpa [h2] using this
          · simp [h2] at this

/-- Structural facts about the membership records made by `createGroup`. -/
theorem groupMembershipsFor_fields (cid ow now : Nat) :
    ∀ (l : List Nat) (ctr : Nat), ∀ m ∈ groupMembershipsFor cid ow now l ctr,
      m.chatId = cid ∧ m.leftAt = none ∧ ctr ≤ m.id := by
  intro l
  induction l with
  | nil => intro ctr m hm; cases hm
  | cons p rest ih =>
    intro ctr m hm
    rcases List.mem_cons.mp hm with rfl | hm'
    · exact ⟨rfl, rfl, Nat.le_refl _⟩
    · have := ih (ctr + 1) m hm'
      exact ⟨this.1, this.2.1, Nat.le_of_succ_le this.2.2⟩

/-- The profile ids of the created group memberships are the member list. -/
theorem groupMembershipsFor_map_profile (cid ow now : Nat) :
    ∀ (l : List Nat) (ctr : Nat),
      (groupMembershipsFor cid ow now l ctr).map (fun m => m.profileId) = l := by
  intro l
  induction l with
  | nil => intro ctr; rfl
  | cons p rest ih => intro ctr; simp [groupMembershipsFor, ih]

/-- The ids of the created group memberships are pairwise distinct. -/
theorem groupMembershipsFor_ids_nodup (cid ow now : Nat) :
    ∀ (l : List Nat) (ctr : Nat),
      ((groupMembershipsFor cid ow now l ctr).map (fun m => m.id)).Nodup := by
  intro l
  induction l with
  | nil => intro ctr; simp [groupMembershipsFor]
  | cons p rest ih =>
    intro ctr
    simp only [groupMembershipsFor, List.map_cons]
    refine List.nodup_cons.mpr ⟨?_, ih (ctr + 1)⟩
    intro hmem
    rcases List.mem_map.mp hmem with ⟨m, hm, hid⟩
    have := (groupMembershipsFor_fields cid ow now rest (ctr + 1) m hm).2.2
    omega

/-- When every id is already an active member, the `addGroupMembers` loop
creates nothing and consumes no ids. -/
theorem addMembersLoop_all_active (cid actor now : Nat) (names : Nat → Option String)
    (activeSet : List Nat) :
    ∀ (ids : List Nat) (ctr : Nat), (∀ p ∈ ids, activeSet.contains p = true) →
      addMembersLoop cid actor now names activeSet ids ctr = ([], [], ctr) := by
  intro ids
  induction ids with
  | nil => intro ctr _; rfl
  | cons p rest ih =>
    intro ctr h
    have hp : activeSet.contains p = true := h p (List.mem_cons_self p rest)
    simp only [addMembersLoop, if_pos hp]
    exact ih ctr (fun q hq => h q (List.mem_cons_of_mem p hq))

/-- Structural facts about the membership records made by the
`addGroupMembers` loop. -/
theorem addMembersLoop_memb_fields (cid actor now : Nat) (names : Nat → Option String)
    (activeSet : List Nat) :
    ∀ (ids : List Nat) (ctr : Nat),
      ∀ m ∈ (addMembersLoop cid actor now names activeSet ids ctr).1,
        m.chatId = cid ∧ m.leftAt = none ∧ activeSet.contains m.profileId = false ∧
          ctr ≤ m.id := by
  intro ids
  induction ids with
  | nil => intro ctr m hm; cases hm
  | cons p rest ih =>
    intro ctr m hm
    by_cases hp : activeSet.contains p
    · simp only [addMembersLoop, if_pos hp] at hm
      exact ih ctr m hm
    · simp only [addMembersLoop, if_neg hp] at hm
      rcases List.mem_cons.mp hm with rfl | hm'
      · exact ⟨rfl, rfl, by simpa using hp, Nat.le_refl _⟩
      · have := ih (ctr + 2) m hm'
        exact ⟨this.1, this.2.1, this.2.2.1, by omega⟩

/-- The profile ids added by the loop form a sublist of the requested ids. -/
theorem addMembersLoop_profile_sublist (cid actor now : Nat) (names : Nat → Option String)
    (activeSet : List Nat) :
    ∀ (ids : List Nat) (ctr : Nat),
      (((addMembersLoop cid actor now names activeSet ids ctr).1.map
        (fun m => m.profileId))).Sublist ids := by
  intro ids
  induction ids with
  | nil => intro ctr; simp [addMembersLoop]
  | cons p rest ih =>
    intro ctr
    by_cases hp : activeSet.contains p
    · simp only [addMembersLoop, if_pos hp]
      exact List.sublist_cons_of_sublist p (ih ctr)
    · simp only [addMembersLoop, if_neg hp, List.map_cons]
      exact List.Sublist.cons₂ p (ih (ctr + 2))

/-- The membership ids created by the loop are pairwise distinct. -/
theorem addMembersLoop_ids_nodup (cid actor now : Nat) (names : Nat → Option String)
    (activeSet : List Nat) :
    ∀ (ids : List Nat) (ctr : Nat),
      (((addMembersLoop cid actor now names activeSet ids ctr).1.map
        (fun m => m.id))).Nodup := by
  intro ids
  induction ids with
  | nil => intro ctr; simp [addMembersLoop]
  | cons p rest ih =>
    intro ctr
    by_cases hp : activeSet.contains p
    · simp only [addMembersLoop, if_pos hp]
      exact ih ctr
    · simp only [addMembersLoop, if_neg hp, List.map_cons]
      refine List.nodup_cons.mpr ⟨?_, ih (ctr + 2)⟩
      intro hmem
      rcases List.mem_map.mp hmem with ⟨m, hm, hid⟩
      have := (addMembersLoop_memb_fields cid actor now names activeSet rest (ctr + 2)
        m hm).2.2.2
      omega

/-- The message ids created by the loop are fresh. -/
theorem addMembersLoop_msg_fields (cid actor now : Nat) (names : Nat → Option String)
    (activeSet : List Nat) :
    ∀ (ids : List Nat) (ctr : Nat),
      ∀ m ∈ (addMembersLoop cid actor now names activeSet ids ctr).2.1, ctr ≤ m.id := by
  intro ids
  induction ids with
  | nil => intro ctr m hm; cases hm
  | cons p rest ih =>
    intro ctr m hm
    by_cases hp : activeSet.contains p
    · simp only [addMembersLoop, if_pos hp] at hm
      exact ih ctr m hm
    · simp only [addMembersLoop, if_neg hp] at hm
      rcases List.mem_cons.mp hm with rfl | hm'
      · show ctr ≤ ctr + 1
        omega
      · have := ih (ctr + 2) m hm'
        omega

/-- The message ids created by the loop are pairwise distinct. -/
theorem addMembersLoop_msg_ids_nodup (cid actor now : Nat) (names : Nat → Option String)
    (activeSet : List Nat) :
    ∀ (ids : List Nat) (ctr : Nat),
      (((addMembersLoop cid actor now names activeSet ids ctr).2.1.map
        (fun m => m.id))).Nodup := by
  intro ids
  induction ids with
  | nil => intro ctr; simp [addMembersLoop]
  | cons p rest ih =>
    intro ctr
    by_cases hp : activeSet.contains p
    · simp only [addMembersLoop, if_pos hp]
      exact ih ctr
    · simp only [addMembersLoop, if_neg hp, List.map_cons]
      refine List.nodup_cons.mpr ⟨?_, ih (ctr + 2)⟩
      intro hmem
      rcases List.mem_map.mp hmem with ⟨m, hm, hid⟩
      have := addMembersLoop_msg_fields cid actor now names activeSet rest (ctr + 2) m hm
      omega

/-- Structural facts about the attachment metadata made by `sendMessage`. -/
theorem attachMetasFor_fields (cid mid now : Nat) :
    ∀ (files : List FileInput) (ctr : Nat),
      ∀ meta ∈ attachMetasFor cid mid now files ctr,
        meta.chatId = cid ∧ meta.messageId = mid ∧ ctr ≤ meta.id ∧ ctr ≤ meta.blobKey := by
  intro files
  induction files with
  | nil => intro ctr meta hm; cases hm
  | cons f rest ih =>
    intro ctr meta hm
    rcases List.mem_cons.mp hm with rfl | hm'
    · exact ⟨rfl, rfl, Nat.le_refl _, Nat.le_refl _⟩
    · have := ih (ctr + 1) meta hm'
      exact ⟨this.1, this.2.1, by omega, by omega⟩

/-- The attachment ids created by `sendMessage` are pairwise distinct. -/
theorem attachMetasFor_ids_nodup (cid mid now : Nat) :
    ∀ (files : List FileInput) (ctr : Nat),
      ((attachMetasFor cid mid now files ctr).map (fun a => a.id)).Nodup := by
  intro files
  induction files with
  | nil => intro ctr; simp [attachMetasFor]
  | cons f rest ih =>
    intro ctr
    simp only [attachMetasFor, List.map_cons]
    refine List.nodup_cons.mpr ⟨?_, ih (ctr + 1)⟩
    intro hmem
    rcases List.mem_map.mp hmem with ⟨meta, hm, hid⟩
    have := (attachMetasFor_fields cid mid now rest (ctr + 1) meta hm).2.2.1
    simp only [mkAttachmentMeta] at hid
    omega

/-- The blob records created by `sendMessage` carry keys at or above `ctr`. -/
theorem attachBlobsFor_keys :
    ∀ (files : List FileInput) (ctr : Nat), ∀ e ∈ attachBlobsFor files ctr, ctr ≤ e.1 := by
  intro files
  induction files with
  | nil => intro ctr e he; cases he
  | cons f rest ih =>
    intro ctr e he
    rcases List.mem_cons.mp he with rfl | he'
    · exact Nat.le_refl _
    · have := ih (ctr + 1) e he'
      omega

/-- The blob keys created by `sendMessage` are pairwise distinct. -/
theorem attachBlobsFor_keys_nodup :
    ∀ (files : List FileInput) (ctr : Nat),
      ((attachBlobsFor files ctr).map (fun e => e.1)).Nodup := by
  intro files
  induction files with
  | nil => intro ctr; simp [attachBlobsFor]
  | cons f rest ih =>
    intro ctr
    simp only [attachBlobsFor, List.map_cons]
    refine List.nodup_cons.mpr ⟨?_, ih (ctr + 1)⟩
    intro hmem
    rcases List.mem_map.mp hmem with ⟨e, he, hk⟩
    have := attachBlobsFor_keys rest (ctr + 1) e he
    omega

/-- The attachments the round trip is expected to produce: the metadata of
each file paired with the file itself as the blob. -/
def attachExpected (cid mid now : Nat) : List FileInput → Nat → List AttachmentWithBlob
  | [], _ => []
  | f :: rest, ctr =>
    { toAttachmentMeta := mkAttachmentMeta cid mid now f ctr, blob := f } ::
      attachExpected cid mid now rest (ctr + 1)

/-- A blob scan skips records whose keys differ from the requested key. -/
theorem findBlob_append_of_lt (k : Nat) :
    ∀ (pre l : List (Nat × FileInput)), (∀ e ∈ pre, e.1 ≠ k) →
      findBlob (pre ++ l) k = findBlob l k := by
  intro pre l h
  unfold findBlob
  rw [find?_append_left_none]
  intro e he
  have := h e he
  simpa using this

/-- Resolving the freshly written metadata against the freshly written blob
store recovers every input file, in order. -/
theorem attach_filterMap_roundtrip (cid mid now : Nat) :
    ∀ (files : List FileInput) (ctr : Nat) (pre : List (Nat × FileInput)),
      (∀ e ∈ pre, e.1 < ctr) →
      ((attachMetasFor cid mid now files ctr).filterMap
        (fun meta => (findBlob (pre ++ attachBlobsFor files ctr) meta.blobKey).map
          (fun b => ({ toAttachmentMeta := meta, blob := b } : AttachmentWithBlob))))
      = attachExpected cid mid now files ctr := by
  intro files
  induction files with
  | nil => intro ctr pre _; rfl
  | cons f rest ih =>
    intro ctr pre hpre
    simp only [attachMetasFor, attachBlobsFor, List.filterMap_cons]
    have hkey : (mkAttachmentMeta cid mid now f ctr).blobKey = ctr := rfl
    have hfind : findBlob (pre ++ (ctr, f) :: attachBlobsFor rest (ctr + 1)) ctr
        = some f := by
      rw [findBlob_append_of_lt ctr pre _ (fun e he => Nat.ne_of_lt (hpre e he))]
      unfold findBlob
      simp [List.find?]
    rw [hkey, hfind]
    simp only [Option.map_some']
    have hassoc : pre ++ (ctr, f) :: attachBlobsFor rest (ctr + 1)
        = (pre ++ [(ctr, f)]) ++ attachBlobsFor rest (ctr + 1) := by simp
    have hpre' : ∀ e ∈ pre ++ [(ctr, f)], e.1 < ctr + 1 := by
      intro e he
      rcases List.mem_append.mp he with h1 | h2
      · exact Nat.lt_succ_of_lt (hpre e h1)
      · have : e = (ctr, f) := by simpa using h2
        subst this
        exact Nat.lt_succ_self _
    calc ({ toAttachmentMeta := mkAttachmentMeta cid mid now f ctr, blob := f } :
            AttachmentWithBlob) ::
          (attachMetasFor cid mid now rest (ctr + 1)).filterMap
            (fun meta => (findBlob (pre ++ (ctr, f) :: attachBlobsFor rest (ctr + 1))
                meta.blobKey).map
              (fun b => ({ toAttachmentMeta := meta, blob := b } : AttachmentWithBlob)))
        = ({ toAttachmentMeta := mkAttachmentMeta cid mid now f ctr, blob := f } :
            AttachmentWithBlob) ::
          (attachMetasFor cid mid now rest (ctr + 1)).filterMap
            (fun meta => (findBlob ((pre ++ [(ctr, f)]) ++ attachBlobsFor rest (ctr + 1))
                meta.blobKey).map
              (fun b => ({ toAttachmentMeta := meta, blob := b } : AttachmentWithBlob))) := by
          rw [hassoc]
      _ = ({ toAttachmentMeta := mkAttachmentMeta cid mid now f ctr, blob := f } :
            AttachmentWithBlob) :: attachExpected cid mid now rest (ctr + 1) := by
          rw [ih (ctr + 1) (pre ++ [(ctr, f)]) hpre']
      _ = attachExpected cid mid now (f :: rest) ctr := rfl

/-- The expected attachments carry the input files as blobs, in order. -/
theorem attachExpected_map_blob (cid mid now : Nat) :
    ∀ (files : List FileInput) (ctr : Nat),
      (attachExpected cid mid now files ctr).map (fun a => a.blob) = files := by
  intro files
  induction files with
  | nil => intro ctr; rfl
  | cons f rest ih => intro ctr; simp [attachExpected, ih]

/-- The expected attachments keep each file's name. -/
theorem attachExpected_map_fileName (cid mid now : Nat) :
    ∀ (files : List FileInput) (ctr : Nat),
      (attachExpected cid mid now files ctr).map (fun a => a.fileName)
        = files.map (fun f => f.name) := by
  intro files
  induction files with
  | nil => intro ctr; rfl
  | cons f rest ih => intro ctr; simp [attachExpected, ih, mkAttachmentMeta]

/-- The expected attachments keep each file's size. -/
theorem attachExpected_map_sizeBytes (cid mid now : Nat) :
    ∀ (files : List FileInput) (ctr : Nat),
      (attachExpected cid mid now files ctr).map (fun a => a.sizeBytes)
        = files.map (fun f => f.size) := by
  intro files
  induction files with
  | nil => intro ctr; rfl
  | cons f rest ih => intro ctr; simp [attachExpected, ih, mkAttachmentMeta]

/-- The expected attachments keep each file's MIME type, except that an empty
type becomes `application/octet-stream`. -/
theorem attachExpected_map_mimeType (cid mid now : Nat) :
    ∀ (files : List FileInput) (ctr : Nat),
      (attachExpected cid mid now files ctr).map (fun a => a.mimeType)
        = files.map (fun f => if f.type = "" then "application/octet-stream" else f.type) := by
  intro files
  induction files with
  | nil => intro ctr; rfl
  | cons f rest ih =>
    intro ctr
    simp only [attachExpected, List.map_cons, ih, mkAttachmentMeta]
    congr 1
    by_cases h : f.type = ""
    · simp [h]
    · simp [h]

/-- The message record a successful `sendMessage` stores and returns. -/
def sentMessageOf (db : DB) (input : SendMessageInput) (now : Nat) : Message :=
  { id := db.nextId, chatId := input.chatId, senderProfileId := input.senderProfileId,
    type := deriveMessageType (jsTrim input.text) input.files,
    text := if jsTrim input.text == "" then none else some (jsTrim input.text),
    attachmentIds := attachIdsFor input.files (db.nextId + 1), createdAt := now }

/-- The state a successful `sendMessage` leaves behind. -/
def sentStateOf (db : DB) (input : SendMessageInput) (now : Nat) : DB :=
  { db with
    attachmentsMeta :=
      (attachMetasFor input.chatId db.nextId now input.files (db.nextId + 1)).foldl
        (fun s meta => putByKey (fun x => x.id) meta s) db.attachmentsMeta,
    attachmentsBlob :=
      (attachBlobsFor input.files (db.nextId + 1)).foldl
        (fun s b => putByKey (fun x => x.1) b s) db.attachmentsBlob,
    messages := putByKey (fun x => x.id) (sentMessageOf db input now) db.messages,
    chats := match getChat db input.chatId with
      | some c => putByKey (fun x => x.id)
          { c with updatedAt := now, lastMessageAt := some now } db.chats
      | none => db.chats,
    nextId := db.nextId + 1 + input.files.length }

/-- A successful `sendMessage` returns exactly the message and state built on
the success path of its definition. -/
theorem sendMessage_ok_shape (cfg : FileLimitConfig) (db : DB) (input : SendMessageInput)
    (now : Nat) (db' : DB) (m : Message)
    (h : sendMessage cfg db input now = Except.ok (db', m)) :
    m = sentMessageOf db input now ∧ db' = sentStateOf db input now := by
  simp only [sendMessage] at h
  by_cases hempty : (jsTrim input.text == "" && input.files.isEmpty) = true
  · rw [if_pos hempty] at h
    exact Except.noConfusion h
  · rw [if_neg hempty] at h
    cases hfind : input.files.find? (fun f => !(validateFile cfg f).ok) with
    | some f =>
      rw [hfind] at h
      exact Except.noConfusion h
    | none =>
      rw [hfind] at h
      by_cases htotal : getTotalAttachmentBytes db + (input.files.map (fun f => f.size)).sum
          > cfg.maxTotalBytes
      · rw [if_pos htotal] at h
        exact Except.noConfusion h
      · rw [if_neg htotal] at h
        have h' := (Except.ok.injEq _ _).mp h
        have hdb : db' = sentStateOf db input now := by
          have := congrArg Prod.fst h'
          exact this.symm
        have hm : m = sentMessageOf db input now := by
          have := congrArg Prod.snd h'
          exact this.symm
        exact ⟨hm, hdb⟩

/-- C3. For every input whose text is empty after trimming and whose file
list is empty, `sendMessage` fails with the empty-message validation error;
since a failed operation returns no state, no Message, AttachmentMeta or
Blob record is produced and every store is unchanged. -/
theorem sendMessage_empty_rejects (cfg : FileLimitConfig) (db : DB)
    (input : SendMessageInput) (now : Nat)
    (h1 : jsTrim input.text = "") (h2 : input.files = []) :
    sendMessage cfg db input now = Except.error "Cannot send an empty message" := by
  simp only [sendMessage]
  rw [if_pos]
  rw [h1, h2]
  rfl

/-- Witness for C3 at a concrete input. -/
theorem sendMessage_empty_rejects_witness :
    jsTrim "  " = "" ∧ ([] : List FileInput) = [] ∧
    sendMessage defaultLimits DB.empty
      { chatId := 0, senderProfileId := 1, text := "  ", files := [] } 7
      = Except.error "Cannot send an empty message" :=
  ⟨by decide, rfl,
    sendMessage_empty_rejects defaultLimits DB.empty
      { chatId := 0, senderProfileId := 1, text := "  ", files := [] } 7 (by decide) rfl⟩

/-- C2. If any input file exceeds the per-file cap, or the stored attachment
bytes plus the new bytes exceed the total cap, `sendMessage` fails with an
error before any write; since a failed operation returns no state, the
stores and `getTotalAttachmentBytes` are unchanged and no record of the
rejected send exists. -/
theorem sendMessage_quota_rejects (cfg : FileLimitConfig) (db : DB)
    (input : SendMessageInput) (now : Nat)
    (h : (∃ f ∈ input.files, cfg.maxFileBytes < f.size) ∨
      cfg.maxTotalBytes < getTotalAttachmentBytes db + (input.files.map (fun f => f.size)).sum) :
    ∃ e, sendMessage cfg db input now = Except.error e := by
  simp only [sendMessage]
  by_cases hempty : (jsTrim input.text == "" && input.files.isEmpty) = true
  · exact ⟨_, by rw [if_pos hempty]⟩
  · rw [if_neg hempty]
    cases hfind : input.files.find? (fun f => !(validateFile cfg f).ok) with
    | some f => exact ⟨_, rfl⟩
    | none =>
      have hall : ∀ f ∈ input.files, ¬cfg.maxFileBytes < f.size := by
        intro f hf
        have := List.find?_eq_none.mp hfind f hf
        intro hlt
        exact this (by simp [validateFile, hlt])
      have htotal : cfg.maxTotalBytes
          < getTotalAttachmentBytes db + (input.files.map (fun f => f.size)).sum := by
        rcases h with ⟨f, hf, hlt⟩ | h2
        · exact absurd hlt (hall f hf)
        · exact h2
      rw [if_pos htotal]
      exact ⟨_, rfl⟩

/-- Witness for C2 at a concrete input: a 15-byte file against a 10-byte cap. -/
theorem sendMessage_quota_rejects_witness :
    (∃ f ∈ ([{ name := "big", type := "", size := 15, content := [] }] : List FileInput),
      10 < f.size) ∧
    ∃ e, sendMessage { maxFileBytes := 10, maxTotalBytes := 100 } DB.empty
      { chatId := 0, senderProfileId := 1, text := "",
        files := [{ name := "big", type := "", size := 15, content := [] }] } 7
      = Except.error e :=
  ⟨⟨_, List.mem_singleton.mpr rfl, by decide⟩,
    sendMessage_quota_rejects { maxFileBytes := 10, maxTotalBytes := 100 } DB.empty
      { chatId := 0, senderProfileId := 1, text := "",
        files := [{ name := "big", type := "", size := 15, content := [] }] } 7
      (Or.inl ⟨_, List.mem_singleton.mpr rfl, by decide⟩)⟩

/-- C6. The kind of a message produced by a successful `sendMessage` is
derived exactly as: no files gives `text`; exactly one file with empty
trimmed text gives `image` when the file's MIME type starts with `image/`
and `file` otherwise; every other case gives `mixed`. -/
theorem sendMessage_type_derivation (cfg : FileLimitConfig) (db : DB)
    (input : SendMessageInput) (now : Nat) (db' : DB) (m : Message)
    (h : sendMessage cfg db input now = Except.ok (db', m)) :
    m.type = match input.files with
      | [] => MessageType.text
      | [f] =>
        if jsTrim input.text = "" then
          if "image/".data <+: f.type.data then MessageType.image else MessageType.file
        else MessageType.mixed
      | _ => MessageType.mixed := by
  have hm := (sendMessage_ok_shape cfg db input now db' m h).1
  rw [hm]
  show deriveMessageType (jsTrim input.text) input.files = _
  cases input.files with
  | nil => rfl
  | cons f rest =>
    cases rest with
    | nil =>
      by_cases ht : jsTrim input.text = ""
      · by_cases hp : "image/".data <+: f.type.data
        · simp [deriveMessageType, isImageMime, List.isPrefixOf_iff_prefix, ht, hp]
        · simp [deriveMessageType, isImageMime, List.isPrefixOf_iff_prefix, ht, hp]
      · simp [deriveMessageType, ht]
    | cons g rest2 => rfl

/-- A concrete successful image send used as the C6 witness input. -/
def imageSendInput : SendMessageInput :=
  { chatId := 0, senderProfileId := 1, text := "",
    files := [{ name := "p.png", type := "image/png", size := 3, content := [9, 9, 9] }] }

/-- The state of the concrete C6 witness send. -/
def imageSendDb : DB :=
  match sendMessage defaultLimits DB.empty imageSendInput 7 with
  | Except.ok (d, _) => d
  | Except.error _ => DB.empty

/-- The message of the concrete C6 witness send. -/
def imageSendMsg : Message :=
  match sendMessage defaultLimits DB.empty imageSendInput 7 with
  | Except.ok (_, mm) => mm
  | Except.error _ =>
    { id := 0, chatId := 0, senderProfileId := 0, type := MessageType.text,
      text := none, attachmentIds := [], createdAt := 0 }

/-- Witness for C6: the concrete single-image no-text send has kind `image`. -/
theorem sendMessage_type_derivation_witness :
    sendMessage defaultLimits DB.empty imageSendInput 7
      = Except.ok (imageSendDb, imageSendMsg) ∧
    imageSendMsg.type = MessageType.image :=
  ⟨by decide,
    (sendMessage_type_derivation defaultLimits DB.empty imageSendInput 7
      imageSendDb imageSendMsg (by decide)).trans (by decide)⟩

/-- Every palette index below the palette length selects a palette colour. -/
theorem colors_getD_mem : ∀ i, i < 8 → COLORS.getD i "" ∈ COLORS := by decide

/-- The derived avatar colour is always one of the eight palette colours. -/
theorem pickAvatarColor_mem (seed : String) : pickAvatarColor seed ∈ COLORS := by
  unfold pickAvatarColor
  exact colors_getD_mem _ (Nat.mod_lt _ (by decide))

/-- C8 (amended). `createProfile` trims the name and stores unconditionally —
it performs no length validation: the stored profile's display name is the
trimmed input of whatever length, the avatar colour is the deterministic
`pickAvatarColor` of the raw name (always a palette colour), and the record
gets a fresh id and `now` timestamps. -/
theorem createProfile_stores_trimmed (db : DB) (name : String) (now : Nat) :
    (createProfile db name now).2.displayName = jsTrim name ∧
    (createProfile db name now).2.avatarColor = pickAvatarColor name ∧
    pickAvatarColor name ∈ COLORS ∧
    (createProfile db name now).2.id = db.nextId ∧
    (createProfile db name now).2.createdAt = now ∧
    (createProfile db name now).2.updatedAt = now ∧
    (createProfile db name now).1.profiles
      = putByKey (fun p => p.id) (createProfile db name now).2 db.profiles ∧
    (createProfile db name now).1.nextId = db.nextId + 1 :=
  ⟨rfl, rfl, pickAvatarColor_mem name, rfl, rfl, rfl, rfl, rfl⟩

/-- Counterexample to C8 as stated: `createProfile ""` neither rejects the
name nor stores a display name of length in [1, 64] — it stores the empty
display name. -/
theorem createProfile_no_validation_cex :
    (createProfile DB.empty "" 0).2.displayName.length = 0 ∧
    (createProfile DB.empty "" 0).1.profiles = [(createProfile DB.empty "" 0).2] := by
  constructor
  · decide
  · decide

/-- C10. `getMessages` never fails on a missing blob: every message of the
chat is returned even if some of its attachment metadata has no stored blob;
every returned attachment carries a blob that is actually present under its
key; and any metadata record whose blob is absent is silently omitted from
the returned attachments. -/
theorem getMessages_skips_missing_blobs (db : DB) (cid : Nat) :
    (∀ msg ∈ db.messages, msg.chatId = cid →
      ∃ mw ∈ getMessages db cid, mw.toMessage = msg) ∧
    (∀ mw ∈ getMessages db cid, ∀ att ∈ mw.attachments,
      getBlobRecord db att.blobKey = some att.blob) ∧
    (∀ mw ∈ getMessages db cid, ∀ meta ∈ db.attachmentsMeta,
      getBlobRecord db meta.blobKey = none →
        ∀ att ∈ mw.attachments, att.toAttachmentMeta ≠ meta) := by
  refine ⟨?_, ?_, ?_⟩
  · intro msg hmsg hcid
    refine ⟨{ toMessage := msg,
              attachments := attachmentsForMessage db
                (db.attachmentsMeta.filter (fun meta => meta.chatId == cid)) msg.id },
      ?_, rfl⟩
    simp only [getMessages]
    apply List.mem_map_of_mem
    rw [List.mem_insertionSort]
    exact List.mem_filter.mpr ⟨hmsg, by simp [hcid]⟩
  · intro mw hmw att hatt
    simp only [getMessages] at hmw
    rcases List.mem_map.mp hmw with ⟨msg, _, rfl⟩
    simp only [attachmentsForMessage] at hatt
    rcases List.mem_filterMap.mp hatt with ⟨meta, _, hsome⟩
    rcases Option.map_eq_some'.mp hsome with ⟨b, hb, rfl⟩
    exact hb
  · intro mw hmw meta _ hnone att hatt
    simp only [getMessages] at hmw
    rcases List.mem_map.mp hmw with ⟨msg, _, rfl⟩
    simp only [attachmentsForMessage] at hatt
    rcases List.mem_filterMap.mp hatt with ⟨meta', _, hsome⟩
    rcases Option.map_eq_some'.mp hsome with ⟨b, hb, rfl⟩
    intro heq
    have : meta' = meta := heq
    rw [this] at hb
    rw [hnone] at hb
    exact Option.noConfusion hb

/-- A state holding one message whose single attachment metadata points at a
blob key with no stored blob. -/
def dbMissingBlob : DB :=
  { profiles := [], chats := [], memberships := [],
    messages := [{ id := 0, chatId := 7, senderProfileId := 1,
                   type := MessageType.mixed, text := some "hi",
                   attachmentIds := [1], createdAt := 0 }],
    attachmentsMeta := [{ id := 1, messageId := 0, chatId := 7,
                          kind := AttachmentKind.file, fileName := "f",
                          mimeType := "text/plain", sizeBytes := 2, blobKey := 1,
                          createdAt := 0 }],
    attachmentsBlob := [], nextId := 2 }

/-- Witness for C10: the message whose only attachment's blob is missing is
still returned by `getMessages`. -/
theorem getMessages_skips_missing_blobs_witness :
    ∃ mw ∈ getMessages dbMissingBlob 7,
      mw.toMessage = { id := 0, chatId := 7, senderProfileId := 1,
                       type := MessageType.mixed, text := some "hi",
                       attachmentIds := [1], createdAt := 0 } :=
  (getMessages_skips_missing_blobs dbMissingBlob 7).1
    { id := 0, chatId := 7, senderProfileId := 1, type := MessageType.mixed,
      text := some "hi", attachmentIds := [1], createdAt := 0 }
    (by decide) rfl

/-- C5. Every chat returned by `getVisibleChatsForProfile` has an active
membership for the profile — `canProfileAccessChat` holds for it — and the
returned list is sorted descending by `lastMessageAt`, with `updatedAt`
taking its place when `lastMessageAt` is null. -/
theorem getVisibleChats_access_and_sorted (db : DB) (p : Nat) :
    (∀ item ∈ getVisibleChatsForProfile db p,
      canProfileAccessChat db p item.chat.id = true) ∧
    (getVisibleChatsForProfile db p).Pairwise itemGe := by
  constructor
  · intro item hitem
    simp only [getVisibleChatsForProfile] at hitem
    rw [List.mem_insertionSort] at hitem
    rcases List.mem_map.mp hitem with ⟨chat, hchat, rfl⟩
    rcases List.mem_filter.mp hchat with ⟨hmemchats, hcontains⟩
    have hidmem : chat.id ∈
        ((db.memberships.filter (fun m => m.leftAt.isNone)).filter
          (fun m => m.profileId == p)).map (fun m => m.chatId) :=
      List.elem_iff.mp hcontains
    rcases List.mem_map.mp hidmem with ⟨m, hm, hcid⟩
    rcases List.mem_filter.mp hm with ⟨hmact, hmp⟩
    rcases List.mem_filter.mp hmact with ⟨hmdb, hmnone⟩
    have hchatfield : (buildChatListItem db p
        (db.memberships.filter (fun m => m.leftAt.isNone)) chat).chat = chat := rfl
    rw [hchatfield]
    unfold canProfileAccessChat
    rw [List.any_eq_true]
    refine ⟨m, List.mem_filter.mpr ⟨hmdb, by simp [hcid]⟩, ?_⟩
    simp only [Bool.and_eq_true]
    exact ⟨hmp, hmnone⟩
  · exact List.sorted_insertionSort itemGe _

/-- A two-member dm state used as the C5 witness input. -/
def dbVisible : DB :=
  { profiles := [{ id := 1, displayName := "A", avatarColor := "", createdAt := 0,
                   updatedAt := 0 },
                 { id := 2, displayName := "B", avatarColor := "", createdAt := 0,
                   updatedAt := 0 }],
    chats := [{ id := 3, type := ChatType.dm, title := none, createdByProfileId := 1,
                createdAt := 0, updatedAt := 7, lastMessageAt := none }],
    memberships := [{ id := 4, chatId := 3, profileId := 1,
                      role := MembershipRole.owner, joinedAt := 0, leftAt := none },
                    { id := 5, chatId := 3, profileId := 2,
                      role := MembershipRole.member, joinedAt := 0, leftAt := none }],
    messages := [], attachmentsMeta := [], attachmentsBlob := [], nextId := 6 }

/-- A default chat-list entry used only to select the head of a computed
list in the C5 witness. -/
def chatListFallback : ChatListItem :=
  { chat := { id := 0, type := ChatType.dm, title := none, createdByProfileId := 0,
              createdAt := 0, updatedAt := 0, lastMessageAt := none },
    title := "", subtitle := "", lastMessageAt := none, memberCount := 0 }

/-- Witness for C5: the first visible chat of the concrete state is indeed
accessible to the querying profile. -/
theorem getVisibleChats_access_and_sorted_witness :
    canProfileAccessChat dbVisible 1
      ((getVisibleChatsForProfile dbVisible 1).headD chatListFallback).chat.id = true :=
  (getVisibleChats_access_and_sorted dbVisible 1).1
    ((getVisibleChatsForProfile dbVisible 1).headD chatListFallback) (by decide)

/-- Bool `contains` holds for a member of a Nat list. -/
theorem contains_of_mem {l : List Nat} {a : Nat} (h : a ∈ l) : l.contains a = true :=
  List.elem_iff.mpr h

/-- C7 (amended). `addGroupMembers` is a complete no-op only when the
de-duplicated id list is empty. When the list is nonempty but every id is
already an active member, no membership and no system message is created and
no id is consumed — but the chat record, when it exists, is still rewritten
with `updatedAt` and `lastMessageAt` set to `now`. -/
theorem addGroupMembers_noop_behavior (db : DB) (cid actor : Nat) (pids : List Nat)
    (now : Nat) :
    (dedupFirst pids = [] → addGroupMembers db cid actor pids now = db) ∧
    (dedupFirst pids ≠ [] →
      (∀ p ∈ dedupFirst pids, p ∈ activeMemberIdsOf db cid) →
      (addGroupMembers db cid actor pids now).memberships = db.memberships ∧
      (addGroupMembers db cid actor pids now).messages = db.messages ∧
      (addGroupMembers db cid actor pids now).nextId = db.nextId ∧
      (addGroupMembers db cid actor pids now).profiles = db.profiles ∧
      (addGroupMembers db cid actor pids now).attachmentsMeta = db.attachmentsMeta ∧
      (addGroupMembers db cid actor pids now).attachmentsBlob = db.attachmentsBlob ∧
      (addGroupMembers db cid actor pids now).chats
        = match getChat db cid with
          | some c => putByKey (fun x => x.id)
              { c with updatedAt := now, lastMessageAt := some now } db.chats
          | none => db.chats) := by
  constructor
  · intro hempty
    simp [addGroupMembers, hempty]
  · intro hne hall
    have hloop := addMembersLoop_all_active cid actor now (displayNameOf db)
      (activeMemberIdsOf db cid) (dedupFirst pids) db.nextId
      (fun p hp => contains_of_mem (hall p hp))
    have hisempty : (dedupFirst pids).isEmpty = false := by
      cases hd : dedupFirst pids with
      | nil => exact absurd hd hne
      | cons q qs => rfl
    simp [addGroupMembers, hisempty, hloop]

/-- A group state with one active member, used against C7. -/
def dbGroupAdd : DB :=
  { profiles := [],
    chats := [{ id := 0, type := ChatType.group, title := some "G",
                createdByProfileId := 1, createdAt := 0, updatedAt := 0,
                lastMessageAt := some 0 }],
    memberships := [{ id := 1, chatId := 0, profileId := 2,
                      role := MembershipRole.member, joinedAt := 0, leftAt := none }],
    messages := [], attachmentsMeta := [], attachmentsBlob := [], nextId := 3 }

/-- Counterexample to C7 as stated: adding an id that is already an active
member creates no membership and no message, yet the stored state is not
unchanged — the chat record's `updatedAt`/`lastMessageAt` are rewritten. -/
theorem addGroupMembers_touches_chat_cex :
    (∀ p ∈ dedupFirst [2], p ∈ activeMemberIdsOf dbGroupAdd 0) ∧
    (addGroupMembers dbGroupAdd 0 9 [2] 999).memberships = dbGroupAdd.memberships ∧
    (addGroupMembers dbGroupAdd 0 9 [2] 999).messages = dbGroupAdd.messages ∧
    (addGroupMembers dbGroupAdd 0 9 [2] 999).chats ≠ dbGroupAdd.chats := by decide

/-- Witness for the amended C7 at the concrete state. -/
theorem addGroupMembers_noop_behavior_witness :
    (addGroupMembers dbGroupAdd 0 9 [2] 999).memberships = dbGroupAdd.memberships ∧
    (addGroupMembers dbGroupAdd 0 9 [2] 999).messages = dbGroupAdd.messages ∧
    (addGroupMembers dbGroupAdd 0 9 [2] 999).nextId = dbGroupAdd.nextId :=
  ⟨((addGroupMembers_noop_behavior dbGroupAdd 0 9 [2] 999).2 (by decide) (by decide)).1,
   ((addGroupMembers_noop_behavior dbGroupAdd 0 9 [2] 999).2 (by decide) (by decide)).2.1,
   ((addGroupMembers_noop_behavior dbGroupAdd 0 9 [2] 999).2 (by decide) (by decide)).2.2.1⟩

/-- The chat record created by the dm-creation branch. -/
def dmChatOf (db : DB) (a now : Nat) : Chat :=
  { id := db.nextId, type := ChatType.dm, title := none, createdByProfileId := a,
    createdAt := now, updatedAt := now, lastMessageAt := none }

/-- The owner membership created by the dm-creation branch. -/
def dmOwnerOf (db : DB) (a now : Nat) : ChatMembership :=
  { id := db.nextId + 1, chatId := db.nextId, profileId := a,
    role := MembershipRole.owner, joinedAt := now, leftAt := none }

/-- The second membership created by the dm-creation branch. -/
def dmMemberOf (db : DB) (b now : Nat) : ChatMembership :=
  { id := db.nextId + 2, chatId := db.nextId, profileId := b,
    role := MembershipRole.member, joinedAt := now, leftAt := none }

/-- `createDm` on a found pair returns the found chat and leaves the state
unchanged. -/
theorem createDm_of_found (db : DB) (a b now : Nat) (c : Chat)
    (h : findExistingDm db a b = some c) : createDm db a b now = (db, c) := by
  simp [createDm, h]

/-- `createDm` on a missing pair creates the chat and the two memberships. -/
theorem createDm_of_not_found (db : DB) (a b now : Nat)
    (h : findExistingDm db a b = none) :
    createDm db a b now =
      ({ db with
          chats := putByKey (fun c => c.id) (dmChatOf db a now) db.chats,
          memberships := putByKey (fun m => m.id) (dmMemberOf db b now)
            (putByKey (fun m => m.id) (dmOwnerOf db a now) db.memberships),
          nextId := db.nextId + 3 }, dmChatOf db a now) := by
  simp [createDm, h, dmChatOf, dmOwnerOf, dmMemberOf]

/-- After the dm-creation branch runs, the lookup finds exactly the chat it
just created. -/
theorem findExistingDm_after_create (db : DB) (a b now : Nat) (hwf : Wf db)
    (hnone : findExistingDm db a b = none) :
    findExistingDm (createDm db a b now).1 a b = some (createDm db a b now).2 := by
  rw [createDm_of_not_found db a b now hnone]
  have hchats : putByKey (fun c => c.id) (dmChatOf db a now) db.chats
      = db.chats ++ [dmChatOf db a now] := by
    apply putByKey_of_fresh
    intro c hc
    have := hwf.2.1 c hc
    show c.id ≠ db.nextId
    omega
  have hm1 : putByKey (fun m => m.id) (dmOwnerOf db a now) db.memberships
      = db.memberships ++ [dmOwnerOf db a now] := by
    apply putByKey_of_fresh
    intro m hm
    have := (hwf.2.2.1 m hm).1
    show m.id ≠ db.nextId + 1
    omega
  have hm2 : putByKey (fun m => m.id) (dmMemberOf db b now)
        (db.memberships ++ [dmOwnerOf db a now])
      = db.memberships ++ [dmOwnerOf db a now, dmMemberOf db b now] := by
    rw [putByKey_of_fresh]
    · simp
    · intro m hm
      rcases List.mem_append.mp hm with h1 | h2
      · have := (hwf.2.2.1 m h1).1
        show m.id ≠ db.nextId + 2
        omega
      · have hm' : m = dmOwnerOf db a now := by simpa using h2
        subst hm'
        show db.nextId + 1 ≠ db.nextId + 2
        omega
  simp only [findExistingDm, hchats, hm1, hm2]
  rw [List.filter_append]
  have hactive2 : ([dmOwnerOf db a now, dmMemberOf db b now].filter
      (fun m => m.leftAt.isNone)) = [dmOwnerOf db a now, dmMemberOf db b now] := rfl
  rw [hactive2]
  have holdfalse : ∀ c ∈ db.chats,
      (c.type == ChatType.dm && dmPairMatches
        (db.memberships.filter (fun m => m.leftAt.isNone)
          ++ [dmOwnerOf db a now, dmMemberOf db b now]) a b c) = false := by
    intro c hc
    have hnone' : db.chats.find? (fun chat => chat.type == ChatType.dm &&
        dmPairMatches (db.memberships.filter (fun m => m.leftAt.isNone)) a b chat)
        = none := hnone
    have hold := List.find?_eq_none.mp hnone' c hc
    have hfilter : ((db.memberships.filter (fun m => m.leftAt.isNone)
          ++ [dmOwnerOf db a now, dmMemberOf db b now]).filter
        (fun m => m.chatId == c.id))
        = (db.memberships.filter (fun m => m.leftAt.isNone)).filter
            (fun m => m.chatId == c.id) := by
      rw [List.filter_append]
      have hclt := hwf.2.1 c hc
      have h1 : ((dmOwnerOf db a now).chatId == c.id) = false := by
        show (db.nextId == c.id) = false
        simp only [beq_eq_false_iff_ne]
        omega
      have h2 : ((dmMemberOf db b now).chatId == c.id) = false := by
        show (db.nextId == c.id) = false
        simp only [beq_eq_false_iff_ne]
        omega
      simp [List.filter_cons, h1, h2]
    have hmatch : dmPairMatches
        (db.memberships.filter (fun m => m.leftAt.isNone)
          ++ [dmOwnerOf db a now, dmMemberOf db b now]) a b c
        = dmPairMatches (db.memberships.filter (fun m => m.leftAt.isNone)) a b c := by
      simp only [dmPairMatches, hfilter]
    rw [hmatch]
    exact Bool.eq_false_iff.mpr hold
  rw [find?_append_left_none _ _ _ holdfalse]
  have hfilterNew : ((db.memberships.filter (fun m => m.leftAt.isNone)
        ++ [dmOwnerOf db a now, dmMemberOf db b now]).filter
      (fun m => m.chatId == (dmChatOf db a now).id))
      = [dmOwnerOf db a now, dmMemberOf db b now] := by
    rw [List.filter_append]
    have hold0 : (db.memberships.filter (fun m => m.leftAt.isNone)).filter
        (fun m => m.chatId == (dmChatOf db a now).id) = [] := by
      apply List.filter_eq_nil_iff.mpr
      intro m hm
      have hmdb := List.mem_of_mem_filter hm
      have := (hwf.2.2.1 m hmdb).2
      show ¬(m.chatId == db.nextId) = true
      simp only [beq_iff_eq]
      omega
    rw [hold0]
    simp [List.filter_cons, dmOwnerOf, dmMemberOf, dmChatOf]
  have hpredNew : ((dmChatOf db a now).type == ChatType.dm && dmPairMatches
      (db.memberships.filter (fun m => m.leftAt.isNone)
        ++ [dmOwnerOf db a now, dmMemberOf db b now]) a b (dmChatOf db a now)) = true := by
    simp only [dmPairMatches, hfilterNew]
    have hmap : ([dmOwnerOf db a now, dmMemberOf db b now].map (fun m => m.profileId))
        = [a, b] := rfl
    rw [hmap]
    have hlen : (sortIds [a, b]).length = 2 := by
      simp only [sortIds]
      rw [List.length_insertionSort]
      rfl
    simp [hlen, dmChatOf]
  simp [List.find?, hpredNew]

/-- C1. `createDm` is idempotent within one context: a second sequential call
for the same pair returns the same chat and leaves the state identical, so
the second call creates no Chat and no ChatMembership record. -/
theorem createDm_idempotent (db : DB) (a b now1 now2 : Nat) (hwf : Wf db) :
    (createDm (createDm db a b now1).1 a b now2).2 = (createDm db a b now1).2 ∧
    (createDm (createDm db a b now1).1 a b now2).1 = (createDm db a b now1).1 := by
  cases hfind : findExistingDm db a b with
  | some c =>
    rw [createDm_of_found db a b now1 c hfind]
    rw [createDm_of_found db a b now2 c hfind]
    exact ⟨rfl, rfl⟩
  | none =>
    have hafter := findExistingDm_after_create db a b now1 hwf hfind
    rw [createDm_of_found _ a b now2 _ hafter]
    exact ⟨rfl, rfl⟩

/-- Witness for C1: the double call on the empty state with profiles 1 and 2. -/
theorem createDm_idempotent_witness :
    Wf DB.empty ∧
    ((createDm (createDm DB.empty 1 2 10).1 1 2 20).2 = (createDm DB.empty 1 2 10).2 ∧
     (createDm (createDm DB.empty 1 2 10).1 1 2 20).1 = (createDm DB.empty 1 2 10).1) :=
  ⟨by decide, createDm_idempotent DB.empty 1 2 10 20 (by decide)⟩

/-- Appending a batch of fresh active memberships preserves the at-most-one
active membership invariant, provided the batch is internally duplicate-free
and clashes with no existing active membership. -/
theorem activeUnique_append_new (olds news : List ChatMembership)
    (hau : (olds.filter (fun m => m.leftAt.isNone)).Pairwise
      (fun m1 m2 => ¬(m1.chatId = m2.chatId ∧ m1.profileId = m2.profileId)))
    (hnews_active : ∀ m ∈ news, m.leftAt = none)
    (hpair : news.Pairwise
      (fun m1 m2 => ¬(m1.chatId = m2.chatId ∧ m1.profileId = m2.profileId)))
    (hcross : ∀ mo ∈ olds.filter (fun m => m.leftAt.isNone), ∀ mi ∈ news,
      ¬(mo.chatId = mi.chatId ∧ mo.profileId = mi.profileId)) :
    ((olds ++ news).filter (fun m => m.leftAt.isNone)).Pairwise
      (fun m1 m2 => ¬(m1.chatId = m2.chatId ∧ m1.profileId = m2.profileId)) := by
  rw [List.filter_append]
  have hnews : news.filter (fun m => m.leftAt.isNone) = news := by
    apply List.filter_eq_self.mpr
    intro m hm
    rw [hnews_active m hm]
    rfl
  rw [hnews]
  exact List.pairwise_append.mpr ⟨hau, hpair, hcross⟩

/-- `createDm` for two distinct profiles preserves the active-membership
uniqueness invariant. -/
theorem activeUnique_createDm (db : DB) (a b now : Nat) (hwf : Wf db)
    (hau : ActiveUnique db) (hne : a ≠ b) : ActiveUnique (createDm db a b now).1 := by
  cases hfind : findExistingDm db a b with
  | some c =>
    rw [createDm_of_found db a b now c hfind]
    exact hau
  | none =>
    rw [createDm_of_not_found db a b now hfind]
    show ActiveUnique _
    unfold ActiveUnique
    show (((putByKey (fun m => m.id) (dmMemberOf db b now)
      (putByKey (fun m => m.id) (dmOwnerOf db a now) db.memberships)).filter
        (fun m => m.leftAt.isNone)).Pairwise _)
    have hm1 : putByKey (fun m => m.id) (dmOwnerOf db a now) db.memberships
        = db.memberships ++ [dmOwnerOf db a now] := by
      apply putByKey_of_fresh
      intro m hm
      have := (hwf.2.2.1 m hm).1
      show m.id ≠ db.nextId + 1
      omega
    have hm2 : putByKey (fun m => m.id) (dmMemberOf db b now)
          (db.memberships ++ [dmOwnerOf db a now])
        = db.memberships ++ [dmOwnerOf db a now, dmMemberOf db b now] := by
      rw [putByKey_of_fresh]
      · simp
      · intro m hm
        rcases List.mem_append.mp hm with h1 | h2
        · have := (hwf.2.2.1 m h1).1
          show m.id ≠ db.nextId + 2
          omega
        · have hm' : m = dmOwnerOf db a now := by simpa using h2
          subst hm'
          show db.nextId + 1 ≠ db.nextId + 2
          omega
    rw [hm1, hm2]
    apply activeUnique_append_new
    · exact hau
    · intro m hm
      rcases List.mem_cons.mp hm with rfl | hm'
      · rfl
      · have : m = dmMemberOf db b now := by simpa using hm'
        subst this
        rfl
    · refine List.pairwise_cons.mpr ⟨?_, List.pairwise_singleton _ _⟩
      intro m hm
      have : m = dmMemberOf db b now := by simpa using hm
      subst this
      intro hcontra
      exact hne hcontra.2
    · intro mo hmo mi hmi
      have hmo_db := List.mem_of_mem_filter hmo
      have hlt := (hwf.2.2.1 mo hmo_db).2
      have hchat : mi.chatId = db.nextId := by
        rcases List.mem_cons.mp hmi with rfl | hmi'
        · rfl
        · have : mi = dmMemberOf db b now := by simpa using hmi'
          subst this
          rfl
      intro hcontra
      rw [hchat] at hcontra
      omega

/-- The membership store after `createGroup` is the old store with the new
group memberships appended. -/
theorem createGroup_memberships_shape (db : DB) (input : CreateGroupInput) (now : Nat)
    (hwf : Wf db) :
    (createGroup db input now).1.memberships
      = db.memberships ++ groupMembershipsFor db.nextId input.ownerProfileId now
          (dedupFirst (input.ownerProfileId :: input.memberProfileIds)) (db.nextId + 1) := by
  show (groupMembershipsFor db.nextId input.ownerProfileId now
      (dedupFirst (input.ownerProfileId :: input.memberProfileIds)) (db.nextId + 1)).foldl
      (fun s m => putByKey (fun x => x.id) m s) db.memberships = _
  apply foldl_putByKey_of_fresh
  · intro n hn x hx
    have hn_ge := (groupMembershipsFor_fields db.nextId input.ownerProfileId now
      _ _ n hn).2.2
    have hx_lt := (hwf.2.2.1 x hx).1
    omega
  · exact groupMembershipsFor_ids_nodup db.nextId input.ownerProfileId now _ _

/-- `createGroup` preserves the active-membership uniqueness invariant. -/
theorem activeUnique_createGroup (db : DB) (input : CreateGroupInput) (now : Nat)
    (hwf : Wf db) (hau : ActiveUnique db) : ActiveUnique (createGroup db input now).1 := by
  unfold ActiveUnique
  rw [createGroup_memberships_shape db input now hwf]
  apply activeUnique_append_new
  · exact hau
  · intro m hm
    exact (groupMembershipsFor_fields db.nextId input.ownerProfileId now _ _ m hm).2.1
  · have hmapeq := groupMembershipsFor_map_profile db.nextId input.ownerProfileId now
      (dedupFirst (input.ownerProfileId :: input.memberProfileIds)) (db.nextId + 1)
    have hnodup : ((groupMembershipsFor db.nextId input.ownerProfileId now
        (dedupFirst (input.ownerProfileId :: input.memberProfileIds))
        (db.nextId + 1)).map (fun m => m.profileId)).Nodup := by
      rw [hmapeq]
      exact (dedupAux_sound (input.ownerProfileId :: input.memberProfileIds) []).1
    have hpw := (List.pairwise_map.mp hnodup)
    exact hpw.imp (fun hne hcontra => hne hcontra.2)
  · intro mo hmo mi hmi
    have hmo_db := List.mem_of_mem_filter hmo
    have hlt := (hwf.2.2.1 mo hmo_db).2
    have hchat := (groupMembershipsFor_fields db.nextId input.ownerProfileId now
      _ _ mi hmi).1
    intro hcontra
    rw [hchat] at hcontra
    omega

/-- The membership store after a nonempty `addGroupMembers` is the old store
with the loop's new memberships appended. -/
theorem addGroupMembers_memberships_shape (db : DB) (cid actor : Nat) (pids : List Nat)
    (now : Nat) (hwf : Wf db) (hne : (dedupFirst pids).isEmpty = false) :
    (addGroupMembers db cid actor pids now).memberships
      = db.memberships ++ (addMembersLoop cid actor now (displayNameOf db)
          (activeMemberIdsOf db cid) (dedupFirst pids) db.nextId).1 := by
  simp only [addGroupMembers, hne, Bool.false_eq_true, if_false]
  apply foldl_putByKey_of_fresh
  · intro n hn x hx
    have hn_ge := (addMembersLoop_memb_fields cid actor now (displayNameOf db)
      (activeMemberIdsOf db cid) _ _ n hn).2.2.2
    have hx_lt := (hwf.2.2.1 x hx).1
    omega
  · exact addMembersLoop_ids_nodup cid actor now (displayNameOf db)
      (activeMemberIdsOf db cid) _ _

/-- An active membership of the chat contributes its profile id to the
active-member set. -/
theorem mem_activeMemberIdsOf (db : DB) (cid : Nat) (m : ChatMembership)
    (hm : m ∈ db.memberships) (hchat : m.chatId = cid) (hact : m.leftAt.isNone = true) :
    m.profileId ∈ activeMemberIdsOf db cid := by
  unfold activeMemberIdsOf
  apply List.mem_map_of_mem
  exact List.mem_filter.mpr ⟨List.mem_filter.mpr ⟨hm, by simp [hchat]⟩, hact⟩

/-- `addGroupMembers` preserves the active-membership uniqueness invariant. -/
theorem activeUnique_addGroupMembers (db : DB) (cid actor : Nat) (pids : List Nat)
    (now : Nat) (hwf : Wf db) (hau : ActiveUnique db) :
    ActiveUnique (addGroupMembers db cid actor pids now) := by
  cases hempty : (dedupFirst pids).isEmpty with
  | true =>
    have : addGroupMembers db cid actor pids now = db := by
      simp [addGroupMembers, hempty]
    rw [this]
    exact hau
  | false =>
    unfold ActiveUnique
    rw [addGroupMembers_memberships_shape db cid actor pids now hwf hempty]
    apply activeUnique_append_new
    · exact hau
    · intro m hm
      exact (addMembersLoop_memb_fields cid actor now (displayNameOf db)
        (activeMemberIdsOf db cid) _ _ m hm).2.1
    · have hsub := addMembersLoop_profile_sublist cid actor now (displayNameOf db)
        (activeMemberIdsOf db cid) (dedupFirst pids) db.nextId
      have hnodup : (((addMembersLoop cid actor now (displayNameOf db)
          (activeMemberIdsOf db cid) (dedupFirst pids) db.nextId).1.map
            (fun m => m.profileId))).Nodup :=
        List.Nodup.sublist hsub (dedupAux_sound pids []).1
      exact (List.pairwise_map.mp hnodup).imp (fun hne hcontra => hne hcontra.2)
    · intro mo hmo mi hmi
      rcases List.mem_filter.mp hmo with ⟨hmo_db, hmo_act⟩
      have hfields := addMembersLoop_memb_fields cid actor now (displayNameOf db)
        (activeMemberIdsOf db cid) _ _ mi hmi
      intro hcontra
      have hmo_chat : mo.chatId = cid := by rw [hcontra.1, hfields.1]
      have hmem := mem_activeMemberIdsOf db cid mo hmo_db hmo_chat hmo_act
      rw [hcontra.2] at hmem
      have := contains_of_mem hmem
      rw [hfields.2.2.1] at this
      exact Bool.noConfusion this

/-- `leaveGroup` preserves the active-membership uniqueness invariant. -/
theorem activeUnique_leaveGroup (db : DB) (cid p now : Nat) (hau : ActiveUnique db) :
    ActiveUnique (leaveGroup db cid p now) := by
  unfold leaveGroup
  cases hfind : (db.memberships.filter (fun m => m.chatId == cid)).find?
      (fun m => m.profileId == p && m.leftAt.isNone) with
  | none => exact hau
  | some active =>
    unfold ActiveUnique
    show ((putByKey (fun m => m.id) { active with leftAt := some now }
        db.memberships).filter (fun m => m.leftAt.isNone)).Pairwise _
    have hsub := filter_putByKey_sublist (fun m => m.id)
      (fun m => m.leftAt.isNone) { active with leftAt := some now } rfl db.memberships
    exact List.Pairwise.sublist hsub hau

/-- For a profile that is already an active member, `addGroupMembers` adds no
membership for that (chat, profile) pair. -/
theorem addGroupMembers_no_readd (db : DB) (cid actor : Nat) (pids : List Nat)
    (now : Nat) (q : Nat) (hwf : Wf db) (hq : q ∈ activeMemberIdsOf db cid) :
    (addGroupMembers db cid actor pids now).memberships.filter
      (fun m => m.chatId == cid && m.profileId == q)
      = db.memberships.filter (fun m => m.chatId == cid && m.profileId == q) := by
  cases hempty : (dedupFirst pids).isEmpty with
  | true =>
    have : addGroupMembers db cid actor pids now = db := by
      simp [addGroupMembers, hempty]
    rw [this]
  | false =>
    rw [addGroupMembers_memberships_shape db cid actor pids now hwf hempty]
    rw [List.filter_append]
    have hnews : ((addMembersLoop cid actor now (displayNameOf db)
        (activeMemberIdsOf db cid) (dedupFirst pids) db.nextId).1.filter
          (fun m => m.chatId == cid && m.profileId == q)) = [] := by
      apply List.filter_eq_nil_iff.mpr
      intro m hm
      have hfields := addMembersLoop_memb_fields cid actor now (displayNameOf db)
        (activeMemberIdsOf db cid) _ _ m hm
      intro habs
      have hprof : (m.profileId == q) = true := by
        rcases Bool.and_eq_true_iff.mp habs with ⟨_, h2⟩
        exact h2
      have : m.profileId = q := by simpa using hprof
      rw [this] at hfields
      have := contains_of_mem hq
      rw [hfields.2.2.1] at this
      exact Bool.noConfusion this
    rw [hnews]
    simp

/-- C4 (amended). At most one active membership exists per (chat, profile)
pair in every well-formed state satisfying the invariant, and every
repository operation preserves it — `createDm` provided its two profile ids
are distinct (`createDm(p, p)` violates the invariant, see the
counterexample), `createGroup`, `addGroupMembers` and `leaveGroup`
unconditionally; re-adding a profile that already has an active membership
creates no new membership for that pair. -/
theorem membership_uniqueness_preserved (db : DB) (hwf : Wf db) (hau : ActiveUnique db) :
    (∀ a b now, a ≠ b → ActiveUnique (createDm db a b now).1) ∧
    (∀ input now, ActiveUnique (createGroup db input now).1) ∧
    (∀ cid actor pids now, ActiveUnique (addGroupMembers db cid actor pids now)) ∧
    (∀ cid p now, ActiveUnique (leaveGroup db cid p now)) ∧
    (∀ cid actor pids now q, q ∈ activeMemberIdsOf db cid →
      (addGroupMembers db cid actor pids now).memberships.filter
        (fun m => m.chatId == cid && m.profileId == q)
        = db.memberships.filter (fun m => m.chatId == cid && m.profileId == q)) :=
  ⟨fun a b now hne => activeUnique_createDm db a b now hwf hau hne,
   fun input now => activeUnique_createGroup db input now hwf hau,
   fun cid actor pids now => activeUnique_addGroupMembers db cid actor pids now hwf hau,
   fun cid p now => activeUnique_leaveGroup db cid p now hau,
   fun cid actor pids now q hq => addGroupMembers_no_readd db cid actor pids now q hwf hq⟩

/-- Counterexample to C4 as stated: `createDm` with the same profile on both
sides creates two active memberships for one (chat, profile) pair. -/
theorem membership_uniqueness_selfDm_cex :
    ActiveUnique DB.empty ∧ ¬ ActiveUnique (createDm DB.empty 5 5 0).1 := by decide

/-- Witness for the amended C4 at a concrete state. -/
theorem membership_uniqueness_preserved_witness :
    Wf DB.empty ∧ ActiveUnique DB.empty ∧ ActiveUnique (createDm DB.empty 1 2 0).1 :=
  ⟨by decide, by decide,
    (membership_uniqueness_preserved DB.empty (by decide) (by decide)).1 1 2 0
      (by decide)⟩

/-- C9 (amended). After a successful `sendMessage`, `getMessages` returns the
sent message with one attachment per input file, in order: the blob content
is the input file itself, and `fileName`/`sizeBytes` equal the input file's
name and size unchanged; `mimeType` equals the file's type when nonempty and
is `application/octet-stream` when the file's type is empty. -/
theorem sendMessage_roundtrip (cfg : FileLimitConfig) (db : DB)
    (input : SendMessageInput) (now : Nat) (db' : DB) (m : Message) (hwf : Wf db)
    (h : sendMessage cfg db input now = Except.ok (db', m)) :
    ∃ mw, mw ∈ getMessages db' input.chatId ∧ mw.toMessage = m ∧
      mw.attachments.map (fun a => a.blob) = input.files ∧
      mw.attachments.map (fun a => a.fileName) = input.files.map (fun f => f.name) ∧
      mw.attachments.map (fun a => a.sizeBytes) = input.files.map (fun f => f.size) ∧
      mw.attachments.map (fun a => a.mimeType)
        = input.files.map (fun f =>
            if f.type = "" then "application/octet-stream" else f.type) := by
  obtain ⟨hm, hdb⟩ := sendMessage_ok_shape cfg db input now db' m h
  subst hm
  subst hdb
  have hmetas : (sentStateOf db input now).attachmentsMeta
      = db.attachmentsMeta
        ++ attachMetasFor input.chatId db.nextId now input.files (db.nextId + 1) := by
    show (attachMetasFor input.chatId db.nextId now input.files (db.nextId + 1)).foldl
      (fun s meta => putByKey (fun x => x.id) meta s) db.attachmentsMeta = _
    apply foldl_putByKey_of_fresh
    · intro n hn x hx
      have hn_ge := (attachMetasFor_fields input.chatId db.nextId now _ _ n hn).2.2.1
      have hx_lt := (hwf.2.2.2.2.1 x hx).1
      omega
    · exact attachMetasFor_ids_nodup input.chatId db.nextId now _ _
  have hblobs : (sentStateOf db input now).attachmentsBlob
      = db.attachmentsBlob ++ attachBlobsFor input.files (db.nextId + 1) := by
    show (attachBlobsFor input.files (db.nextId + 1)).foldl
      (fun s b => putByKey (fun x => x.1) b s) db.attachmentsBlob = _
    apply foldl_putByKey_of_fresh
    · intro n hn x hx
      have hn_ge := attachBlobsFor_keys input.files (db.nextId + 1) n hn
      have hx_lt := hwf.2.2.2.2.2 x hx
      omega
    · exact attachBlobsFor_keys_nodup input.files (db.nextId + 1)
  have hmsgs : (sentStateOf db input now).messages
      = db.messages ++ [sentMessageOf db input now] := by
    show putByKey (fun x => x.id) (sentMessageOf db input now) db.messages = _
    apply putByKey_of_fresh
    intro x hx
    have := hwf.2.2.2.1 x hx
    show x.id ≠ db.nextId
    omega
  refine ⟨{ toMessage := sentMessageOf db input now,
            attachments := attachmentsForMessage (sentStateOf db input now)
              ((sentStateOf db input now).attachmentsMeta.filter
                (fun meta => meta.chatId == input.chatId))
              (sentMessageOf db input now).id }, ?_, rfl, ?_⟩
  · simp only [getMessages]
    apply List.mem_map_of_mem
    rw [List.mem_insertionSort]
    apply List.mem_filter.mpr
    constructor
    · rw [hmsgs]
      exact List.mem_append_right _ (List.mem_singleton.mpr rfl)
    · simp [sentMessageOf]
  · have hchatMetas : (sentStateOf db input now).attachmentsMeta.filter
        (fun meta => meta.chatId == input.chatId)
        = db.attachmentsMeta.filter (fun meta => meta.chatId == input.chatId)
          ++ attachMetasFor input.chatId db.nextId now input.files (db.nextId + 1) := by
      rw [hmetas, List.filter_append]
      congr 1
      apply List.filter_eq_self.mpr
      intro meta hmeta
      have := (attachMetasFor_fields input.chatId db.nextId now _ _ meta hmeta).1
      simp [this]
    have hmsgfilter : ((sentStateOf db input now).attachmentsMeta.filter
          (fun meta => meta.chatId == input.chatId)).filter
        (fun meta => meta.messageId == (sentMessageOf db input now).id)
        = attachMetasFor input.chatId db.nextId now input.files (db.nextId + 1) := by
      rw [hchatMetas, List.filter_append]
      have hold : (db.attachmentsMeta.filter
            (fun meta => meta.chatId == input.chatId)).filter
          (fun meta => meta.messageId == (sentMessageOf db input now).id) = [] := by
        apply List.filter_eq_nil_iff.mpr
        intro meta hmeta
        have hmeta_db := List.mem_of_mem_filter hmeta
        have := (hwf.2.2.2.2.1 meta hmeta_db).2.1
        show ¬(meta.messageId == db.nextId) = true
        simp only [beq_iff_eq]
        omega
      have hnew : (attachMetasFor input.chatId db.nextId now input.files
            (db.nextId + 1)).filter
          (fun meta => meta.messageId == (sentMessageOf db input now).id)
          = attachMetasFor input.chatId db.nextId now input.files (db.nextId + 1) := by
        apply List.filter_eq_self.mpr
        intro meta hmeta
        have := (attachMetasFor_fields input.chatId db.nextId now _ _ meta hmeta).2.1
        show (meta.messageId == db.nextId) = true
        simp [this]
      rw [hold, hnew]
      rfl
    have hatt : attachmentsForMessage (sentStateOf db input now)
        ((sentStateOf db input now).attachmentsMeta.filter
          (fun meta => meta.chatId == input.chatId))
        (sentMessageOf db input now).id
        = attachExpected input.chatId db.nextId now input.files (db.nextId + 1) := by
      unfold attachmentsForMessage
      rw [hmsgfilter]
      have hpre : ∀ e ∈ db.attachmentsBlob, e.1 < db.nextId + 1 := by
        intro e he
        have := hwf.2.2.2.2.2 e he
        omega
      have := attach_filterMap_roundtrip input.chatId db.nextId now input.files
        (db.nextId + 1) db.attachmentsBlob hpre
      rw [← this]
      apply List.filterMap_congr
      intro meta _
      unfold getBlobRecord
      rw [hblobs]
    rw [hatt]
    exact ⟨attachExpected_map_blob input.chatId db.nextId now input.files _,
      attachExpected_map_fileName input.chatId db.nextId now input.files _,
      attachExpected_map_sizeBytes input.chatId db.nextId now input.files _,
      attachExpected_map_mimeType input.chatId db.nextId now input.files _⟩

/-- A send whose single file has an empty MIME type. -/
def emptyTypeSendInput : SendMessageInput :=
  { chatId := 0, senderProfileId := 1, text := "",
    files := [{ name := "doc", type := "", size := 3, content := [1, 2, 3] }] }

/-- Counterexample to C9 as stated: for a file with empty MIME type the
stored and returned `mimeType` is `application/octet-stream`, not the input
file's type unchanged. -/
theorem sendMessage_mime_fallback_cex :
    (match sendMessage defaultLimits DB.empty emptyTypeSendInput 5 with
     | Except.ok (d, _) =>
       (getMessages d 0).map (fun mw => mw.attachments.map (fun a => a.mimeType))
     | Except.error _ => []) = [["application/octet-stream"]] ∧
    emptyTypeSendInput.files.map (fun f => f.type) = [""] ∧
    ("application/octet-stream" : String) ≠ "" := by decide

/-- Witness for the amended C9: the concrete image send round-trips. -/
theorem sendMessage_roundtrip_witness :
    Wf DB.empty ∧
    ∃ mw, mw ∈ getMessages imageSendDb imageSendInput.chatId ∧
      mw.toMessage = imageSendMsg ∧
      mw.attachments.map (fun a => a.blob) = imageSendInput.files ∧
      mw.attachments.map (fun a => a.fileName)
        = imageSendInput.files.map (fun f => f.name) ∧
      mw.attachments.map (fun a => a.sizeBytes)
        = imageSendInput.files.map (fun f => f.size) ∧
      mw.attachments.map (fun a => a.mimeType)
        = imageSendInput.files.map (fun f =>
            if f.type = "" then "application/octet-stream" else f.type) :=
  ⟨by decide, sendMessage_roundtrip defaultLimits DB.empty imageSendInput 7
    imageSendDb imageSendMsg (by decide) (by decide)⟩
